import Mathlib

/-!
# Temp-files workload (`tempfiles/tempfiles.go`)

A shallow embedding of `workload.Run`, `workload.prepare` and `workload.cleanup`.

* The collaborators (`pgxpool.Connect`, `pool.Exec`, the caller's context) are an
  environment `Env`: the error returned by `Connect` and, for the n-th `Exec` call made
  on the pool, the error it returns.
* `prepare` and `cleanup` are sequential functions over the effect trace.
* `Run` is a small-step machine.  The scheduler is explicit: an execution is a list of
  `Event`s, and `step` returns `none` when the event is not enabled in the state.
  The two branches of the `select` are the events `send` and `done`; Go chooses among
  the ready branches without priority, so both are offered whenever both are enabled.
* Worker goroutines are anonymous copies of one closure, so the state keeps how many
  of them stand at each of its three statements.
* Go `int` is taken to be 64 bits wide.
-/

namespace Tempfiles

/-! ## Data model -/

/-- A non-nil Go error value.  A Go value of type `error` is an `Option GoErr`,
with `none` standing for nil. -/
structure GoErr where
  msg : String
  deriving DecidableEq, Repr

/-- The SQL statements of the file: the three constants and the literal of `cleanup`. -/
inductive Stmt
  | queryCreateTable
  | queryLoadData
  | querySelectData
  | queryDropTable
  deriving DecidableEq, Repr

/-- Config of the temp files workload.  `Jobs` is a `uint16`, the other two are `int`. -/
structure Config where
  PostgresConninfo : String
  Jobs : Nat
  TempFilesRate : Int
  TempFilesScaleFactor : Int
  deriving DecidableEq, Repr

/-- The goroutine performing an effect. -/
inductive Actor
  | main
  | worker
  deriving DecidableEq, Repr

/-- Observable effects, in the order they happen. -/
inductive Effect
  | connect (conninfo : String)
  | exec (who : Actor) (q : Stmt) (args : List Int)
  | close
  | send
  | sleep (d : Int)
  | release
  deriving DecidableEq, Repr

/-- The collaborators: the error of `pgxpool.Connect` and the error of the n-th call of
`Exec` on the pool (n counts all earlier `Exec` calls of the run). -/
structure Env where
  connect : Option GoErr
  exec : Nat → Stmt → List Int → Option GoErr

/-- How `Run` ends: a normal return with its `error`, or the run-time panic of an
integer division by zero. -/
inductive Outcome
  | ret (err : Option GoErr)
  | panic
  deriving DecidableEq, Repr

/-- The two deferred calls of `Run`. -/
inductive Deferred
  | poolClose
  | cleanup
  deriving DecidableEq, Repr

/-- Program counter of the goroutine executing `Run`. -/
inductive Pc
  | connect
  | prepare
  | interval
  | select
  | exit (o : Outcome)
  | finished (o : Outcome)
  deriving DecidableEq, Repr

/-- State of one run.  `defers` has the most recently deferred call first; `guardLen`
is the number of tokens buffered in `guard`; `running`, `sleeping`, `releasing` count
the worker goroutines standing before `pool.Exec`, inside `time.Sleep` and before
`<-guard`. -/
structure State where
  pc : Pc
  defers : List Deferred
  cancelled : Bool
  interval : Int
  guardLen : Nat
  running : Nat
  sleeping : Nat
  releasing : Nat
  trace : List Effect
  deriving DecidableEq, Repr

/-- Scheduler choices. `cancel` is the caller cancelling the context; `main` is the next
sequential statement of `Run`; `send` and `done` are the two cases of the `select`;
the last three advance one worker goroutine standing at the named statement. -/
inductive Event
  | cancel
  | main
  | send
  | done
  | workerExec
  | workerWake
  | workerRecv
  deriving DecidableEq, Repr

/-! ## Go arithmetic -/

/-- Two's-complement wrap-around to a signed 64-bit integer. -/
def wrapInt64 (x : Int) : Int := (x + 2 ^ 63) % 2 ^ 64 - 2 ^ 63

/-- Go `a * b` on `int`. -/
def goMul (a b : Int) : Int := wrapInt64 (a * b)

/-- Go `a / b` on `int64`: truncated division, a run-time panic (`none`) when the
divisor is zero.  The only dividend used is 1000000000, whose quotients fit. -/
def goDiv (a b : Int) : Option Int := if b = 0 then none else some (Int.tdiv a b)

/-! ## Effects on the pool -/

def Effect.isExec : Effect → Bool
  | .exec _ _ _ => true
  | _ => false

/-- Number of `Exec` calls made so far. -/
def execCount (tr : List Effect) : Nat := tr.countP Effect.isExec

/-- One call `pool.Exec(ctx, q, args...)`: the environment decides the error, the call
is appended to the trace. -/
def poolExec (env : Env) (who : Actor) (q : Stmt) (args : List Int) (tr : List Effect) :
    Option GoErr × List Effect :=
  (env.exec (execCount tr) q args, tr ++ [Effect.exec who q args])

/-- The function `workload.prepare`. -/
def prepare (cfg : Config) (env : Env) (tr : List Effect) : Option GoErr × List Effect :=
  match poolExec env Actor.main Stmt.queryCreateTable [] tr with
  | (some err, tr1) => (some err, tr1)
  | (none, tr1) =>
    match poolExec env Actor.main Stmt.queryLoadData [goMul 1000 cfg.TempFilesScaleFactor] tr1 with
    | (some err, tr2) => (some err, tr2)
    | (none, tr2) => (none, tr2)

/-- The function `workload.cleanup`. -/
def cleanup (env : Env) (tr : List Effect) : Option GoErr × List Effect :=
  match poolExec env Actor.main Stmt.queryDropTable [] tr with
  | (some err, tr1) => (some err, tr1)
  | (none, tr1) => (none, tr1)

/-- The inter-query interval of `Run`: `1000000000 / int64(w.config.TempFilesRate)`. -/
def calcInterval (cfg : Config) : Option Int := goDiv 1000000000 cfg.TempFilesRate

/-! ## The machine for `Run` -/

/-- State at the call of `Run`.  A context that is cancelled before the call is the
schedule that starts with `Event.cancel`. -/
def init : State :=
  { pc := Pc.connect, defers := [], cancelled := false, interval := 0, guardLen := 0,
    running := 0, sleeping := 0, releasing := 0, trace := [] }

/-- Next sequential statement of `Run` outside the `select`. -/
def stepMain (cfg : Config) (env : Env) (s : State) : Option State :=
  match s.pc with
  | Pc.connect =>
    match env.connect with
    | some err =>
      some { s with pc := Pc.finished (Outcome.ret (some err)),
                    trace := s.trace ++ [Effect.connect cfg.PostgresConninfo] }
    | none =>
      some { s with pc := Pc.prepare, defers := Deferred.poolClose :: s.defers,
                    trace := s.trace ++ [Effect.connect cfg.PostgresConninfo] }
  | Pc.prepare =>
    match prepare cfg env s.trace with
    | (some err, tr) => some { s with pc := Pc.exit (Outcome.ret (some err)), trace := tr }
    | (none, tr) =>
      some { s with pc := Pc.interval, defers := Deferred.cleanup :: s.defers, trace := tr }
  | Pc.interval =>
    match calcInterval cfg with
    | none => some { s with pc := Pc.exit Outcome.panic }
    | some d => some { s with pc := Pc.select, interval := d, guardLen := 0 }
  | Pc.select => none
  | Pc.exit o =>
    match s.defers with
    | [] => some { s with pc := Pc.finished o }
    | Deferred.cleanup :: ds => some { s with defers := ds, trace := (cleanup env s.trace).2 }
    | Deferred.poolClose :: ds => some { s with defers := ds, trace := s.trace ++ [Effect.close] }
  | Pc.finished _ => none

/-- The case `guard <- struct{}{}` of the `select` with the `go` statement of its body.
A send proceeds by handing the token to a receiver blocked on the empty channel, or else
by buffering it when the buffer has room; otherwise the case is not ready. -/
def stepSend (cfg : Config) (s : State) : Option State :=
  match s.pc with
  | Pc.select =>
    if s.guardLen = 0 ∧ 0 < s.releasing then
      some { s with releasing := s.releasing - 1, running := s.running + 1,
                    trace := s.trace ++ [Effect.send, Effect.release] }
    else if s.guardLen < cfg.Jobs then
      some { s with guardLen := s.guardLen + 1, running := s.running + 1,
                    trace := s.trace ++ [Effect.send] }
    else none
  | _ => none

/-- The case `<-ctx.Done()` of the `select`: ready once the context is cancelled;
`return nil`. -/
def stepDone (s : State) : Option State :=
  match s.pc with
  | Pc.select => if s.cancelled then some { s with pc := Pc.exit (Outcome.ret none) } else none
  | _ => none

/-- A worker executes `_, _ = pool.Exec(ctx, querySelectData)`, dropping the result. -/
def stepWorkerExec (env : Env) (s : State) : Option State :=
  if 0 < s.running then
    some { s with running := s.running - 1, sleeping := s.sleeping + 1,
                  trace := (poolExec env Actor.worker Stmt.querySelectData [] s.trace).2 }
  else none

/-- A worker returns from `time.Sleep(time.Duration(interval) * time.Nanosecond)`. -/
def stepWorkerWake (s : State) : Option State :=
  if 0 < s.sleeping then
    some { s with sleeping := s.sleeping - 1, releasing := s.releasing + 1,
                  trace := s.trace ++ [Effect.sleep s.interval] }
  else none

/-- A worker executes `<-guard` from the buffer; with an empty buffer it blocks. -/
def stepWorkerRecv (s : State) : Option State :=
  if 0 < s.releasing ∧ 0 < s.guardLen then
    some { s with releasing := s.releasing - 1, guardLen := s.guardLen - 1,
                  trace := s.trace ++ [Effect.release] }
  else none

/-- One scheduler step; `none` when the event is not enabled. -/
def step (cfg : Config) (env : Env) (s : State) : Event → Option State
  | Event.cancel => some { s with cancelled := true }
  | Event.main => stepMain cfg env s
  | Event.send => stepSend cfg s
  | Event.done => stepDone s
  | Event.workerExec => stepWorkerExec env s
  | Event.workerWake => stepWorkerWake s
  | Event.workerRecv => stepWorkerRecv s

/-- Execution of a schedule from a state. -/
def runFrom (cfg : Config) (env : Env) : State → List Event → Option State
  | s, [] => some s
  | s, e :: es =>
    match step cfg env s e with
    | none => none
    | some s1 => runFrom cfg env s1 es

/-- An execution of `workload.Run` under a schedule. -/
def Run (cfg : Config) (env : Env) (sched : List Event) : Option State :=
  runFrom cfg env init sched

/-- The value `Run` ended with, if it has ended. -/
def State.result (s : State) : Option Outcome :=
  match s.pc with
  | Pc.finished o => some o
  | _ => none

/-! ## Observations on traces -/

/-- Slots acquired: sends on `guard` that proceeded. -/
def acquired (tr : List Effect) : Nat := tr.count Effect.send

/-- Slots released: receives from `guard` that proceeded. -/
def released (tr : List Effect) : Nat := tr.count Effect.release

/-- Worker goroutines alive, i.e. operations in flight. -/
def State.inFlight (s : State) : Nat := s.running + s.sleeping + s.releasing

/-- Calls of `cleanup`: executions of the DROP TABLE statement. -/
def cleanupCount (tr : List Effect) : Nat :=
  tr.count (Effect.exec Actor.main Stmt.queryDropTable [])

/-- Executions of the workload query. -/
def workloadCount (tr : List Effect) : Nat :=
  tr.count (Effect.exec Actor.worker Stmt.querySelectData [])

/-- Calls of `pool.Close`. -/
def closeCount (tr : List Effect) : Nat := tr.count Effect.close

def Effect.isMain : Effect → Bool
  | .connect _ => true
  | .exec Actor.main _ _ => true
  | .close => true
  | .send => true
  | _ => false

/-- The effects of the goroutine executing `Run`, in order. -/
def mainEffects (tr : List Effect) : List Effect := tr.filter Effect.isMain

/-! ## The step relation -/

/-- The transitions of `step`, one constructor per statement, for reasoning by cases. -/
inductive Step (cfg : Config) (env : Env) : State → Event → State → Prop
  | cancel (s : State) : Step cfg env s Event.cancel { s with cancelled := true }
  | connectFail (s : State) (err : GoErr) (hpc : s.pc = Pc.connect)
      (hc : env.connect = some err) :
      Step cfg env s Event.main
        { s with pc := Pc.finished (Outcome.ret (some err)),
                 trace := s.trace ++ [Effect.connect cfg.PostgresConninfo] }
  | connectOk (s : State) (hpc : s.pc = Pc.connect) (hc : env.connect = none) :
      Step cfg env s Event.main
        { s with pc := Pc.prepare, defers := Deferred.poolClose :: s.defers,
                 trace := s.trace ++ [Effect.connect cfg.PostgresConninfo] }
  | prepareFail (s : State) (err : GoErr) (tr : List Effect) (hpc : s.pc = Pc.prepare)
      (hp : prepare cfg env s.trace = (some err, tr)) :
      Step cfg env s Event.main { s with pc := Pc.exit (Outcome.ret (some err)), trace := tr }
  | prepareOk (s : State) (tr : List Effect) (hpc : s.pc = Pc.prepare)
      (hp : prepare cfg env s.trace = (none, tr)) :
      Step cfg env s Event.main
        { s with pc := Pc.interval, defers := Deferred.cleanup :: s.defers, trace := tr }
  | intervalPanic (s : State) (hpc : s.pc = Pc.interval) (hd : calcInterval cfg = none) :
      Step cfg env s Event.main { s with pc := Pc.exit Outcome.panic }
  | intervalOk (s : State) (d : Int) (hpc : s.pc = Pc.interval)
      (hd : calcInterval cfg = some d) :
      Step cfg env s Event.main { s with pc := Pc.select, interval := d, guardLen := 0 }
  | exitFinish (s : State) (o : Outcome) (hpc : s.pc = Pc.exit o) (hds : s.defers = []) :
      Step cfg env s Event.main { s with pc := Pc.finished o }
  | exitCleanup (s : State) (o : Outcome) (ds : List Deferred) (hpc : s.pc = Pc.exit o)
      (hds : s.defers = Deferred.cleanup :: ds) :
      Step cfg env s Event.main { s with defers := ds, trace := (cleanup env s.trace).2 }
  | exitClose (s : State) (o : Outcome) (ds : List Deferred) (hpc : s.pc = Pc.exit o)
      (hds : s.defers = Deferred.poolClose :: ds) :
      Step cfg env s Event.main { s with defers := ds, trace := s.trace ++ [Effect.close] }
  | sendHandoff (s : State) (hpc : s.pc = Pc.select) (hlen : s.guardLen = 0)
      (hrecv : 0 < s.releasing) :
      Step cfg env s Event.send
        { s with releasing := s.releasing - 1, running := s.running + 1,
                 trace := s.trace ++ [Effect.send, Effect.release] }
  | sendBuffer (s : State) (hpc : s.pc = Pc.select)
      (hno : ¬ (s.guardLen = 0 ∧ 0 < s.releasing)) (hlen : s.guardLen < cfg.Jobs) :
      Step cfg env s Event.send
        { s with guardLen := s.guardLen + 1, running := s.running + 1,
                 trace := s.trace ++ [Effect.send] }
  | done (s : State) (hpc : s.pc = Pc.select) (hc : s.cancelled = true) :
      Step cfg env s Event.done { s with pc := Pc.exit (Outcome.ret none) }
  | workerExec (s : State) (hrun : 0 < s.running) :
      Step cfg env s Event.workerExec
        { s with running := s.running - 1, sleeping := s.sleeping + 1,
                 trace := (poolExec env Actor.worker Stmt.querySelectData [] s.trace).2 }
  | workerWake (s : State) (hsl : 0 < s.sleeping) :
      Step cfg env s Event.workerWake
        { s with sleeping := s.sleeping - 1, releasing := s.releasing + 1,
                 trace := s.trace ++ [Effect.sleep s.interval] }
  | workerRecv (s : State) (hrel : 0 < s.releasing) (hlen : 0 < s.guardLen) :
      Step cfg env s Event.workerRecv
        { s with releasing := s.releasing - 1, guardLen := s.guardLen - 1,
                 trace := s.trace ++ [Effect.release] }

/-- A state is reachable when some schedule leads `Run` to it. -/
def Reachable (cfg : Config) (env : Env) (s : State) : Prop :=
  ∃ sched, Run cfg env sched = some s

/-! ## Invariants -/

/-- The run has reached the loop: it is in the `select` or left it by `return nil`. -/
def State.entered (s : State) : Prop :=
  s.pc = Pc.select ∨ s.pc = Pc.exit (Outcome.ret none) ∨ s.pc = Pc.finished (Outcome.ret none)

/-- The call `w.prepare(ctx)` as `Run` makes it: the trace then holds the connect alone. -/
def prepareAt (cfg : Config) (env : Env) : Option GoErr × List Effect :=
  prepare cfg env [Effect.connect cfg.PostgresConninfo]

/-- How a run that got past `prepare` ends: the panic of the division, or `return nil`
out of the loop. -/
def LoopOutcome (cfg : Config) (s : State) (o : Outcome) : Prop :=
  (calcInterval cfg = none ∧ o = Outcome.panic) ∨
  (calcInterval cfg = some s.interval ∧ o = Outcome.ret none)

/-- Facts about a run that is executing its deferred calls. -/
def Unwinding (cfg : Config) (env : Env) (s : State) (o : Outcome) : Prop :=
  (∃ err, (prepareAt cfg env).1 = some err ∧ o = Outcome.ret (some err) ∧
      cleanupCount s.trace = 0 ∧
      ((s.defers = [Deferred.poolClose] ∧ closeCount s.trace = 0) ∨
       (s.defers = [] ∧ closeCount s.trace = 1))) ∨
  ((prepareAt cfg env).1 = none ∧ LoopOutcome cfg s o ∧
      ((s.defers = [Deferred.cleanup, Deferred.poolClose] ∧ cleanupCount s.trace = 0 ∧
          closeCount s.trace = 0) ∨
       (s.defers = [Deferred.poolClose] ∧ cleanupCount s.trace = 1 ∧ closeCount s.trace = 0) ∨
       (s.defers = [] ∧ cleanupCount s.trace = 1 ∧ closeCount s.trace = 1)))

/-- Facts about a run that has ended. -/
def Ended (cfg : Config) (env : Env) (s : State) (o : Outcome) : Prop :=
  (∃ err, env.connect = some err ∧ o = Outcome.ret (some err) ∧ cleanupCount s.trace = 0 ∧
      closeCount s.trace = 0) ∨
  (env.connect = none ∧
    ((∃ err, (prepareAt cfg env).1 = some err ∧ o = Outcome.ret (some err) ∧
        cleanupCount s.trace = 0 ∧ closeCount s.trace = 1) ∨
     ((prepareAt cfg env).1 = none ∧ LoopOutcome cfg s o ∧ cleanupCount s.trace = 1 ∧
        closeCount s.trace = 1)))

/-- What the program counter of `Run` tells about the past of the run. -/
def PhaseInv (cfg : Config) (env : Env) (s : State) : Prop :=
  match s.pc with
  | Pc.connect => s.trace = [] ∧ s.defers = []
  | Pc.prepare =>
    env.connect = none ∧ s.trace = [Effect.connect cfg.PostgresConninfo] ∧
      s.defers = [Deferred.poolClose]
  | Pc.interval =>
    env.connect = none ∧ (prepareAt cfg env).1 = none ∧
      s.defers = [Deferred.cleanup, Deferred.poolClose] ∧
      cleanupCount s.trace = 0 ∧ closeCount s.trace = 0
  | Pc.select =>
    env.connect = none ∧ (prepareAt cfg env).1 = none ∧ calcInterval cfg = some s.interval ∧
      s.defers = [Deferred.cleanup, Deferred.poolClose] ∧
      cleanupCount s.trace = 0 ∧ closeCount s.trace = 0
  | Pc.exit o => env.connect = none ∧ Unwinding cfg env s o
  | Pc.finished o => Ended cfg env s o

/-- The invariant of the concurrency gate. -/
def GateInv (cfg : Config) (s : State) : Prop :=
  s.guardLen = s.inFlight ∧ s.guardLen ≤ cfg.Jobs ∧
  acquired s.trace = released s.trace + s.guardLen ∧
  (¬ s.entered → acquired s.trace = 0 ∧ released s.trace = 0 ∧ s.guardLen = 0 ∧
    workloadCount s.trace = 0)

/-- What the goroutine of `Run` has done since it left the loop by `return nil` with the
trace `tr0`: nothing yet, `cleanup`, or `cleanup` and then `pool.Close`. -/
def AfterLoop (tr0 : List Effect) (s : State) : Prop :=
  ∃ ext, s.trace = tr0 ++ ext ∧
    ((s.pc = Pc.exit (Outcome.ret none) ∧
        s.defers = [Deferred.cleanup, Deferred.poolClose] ∧ mainEffects ext = []) ∨
     (s.pc = Pc.exit (Outcome.ret none) ∧ s.defers = [Deferred.poolClose] ∧
        mainEffects ext = [Effect.exec Actor.main Stmt.queryDropTable []]) ∨
     (s.pc = Pc.exit (Outcome.ret none) ∧ s.defers = [] ∧
        mainEffects ext = [Effect.exec Actor.main Stmt.queryDropTable [], Effect.close]) ∨
     (s.pc = Pc.finished (Outcome.ret none) ∧
        mainEffects ext = [Effect.exec Actor.main Stmt.queryDropTable [], Effect.close]))

/-- Every sleep of a worker lasts the interval `Run` computed. -/
def SleepInv (cfg : Config) (s : State) : Prop :=
  ∀ d, Effect.sleep d ∈ s.trace → calcInterval cfg = some d

/-- Nothing was ever admitted. -/
def IdleInv (s : State) : Prop :=
  acquired s.trace = 0 ∧ released s.trace = 0 ∧ workloadCount s.trace = 0 ∧
  s.inFlight = 0 ∧ s.guardLen = 0

/-- A run that left the loop by `return nil` saw the context cancelled. -/
def CancelInv (s : State) : Prop :=
  (s.pc = Pc.exit (Outcome.ret none) ∨ s.pc = Pc.finished (Outcome.ret none)) →
    s.cancelled = true

/-! ## Concrete configurations and environments -/

/-- One job, 100 queries per second, scale factor 2. -/
def cfgOne : Config :=
  { PostgresConninfo := "host=127.0.0.1", Jobs := 1, TempFilesRate := 100,
    TempFilesScaleFactor := 2 }

/-- The configuration `cfgOne` with `TempFilesRate` zero. -/
def cfgRateZero : Config := { cfgOne with TempFilesRate := 0 }

/-- The configuration `cfgOne` with `Jobs` zero. -/
def cfgJobsZero : Config := { cfgOne with Jobs := 0 }

/-- Every collaborator succeeds. -/
def envOk : Env := { connect := none, exec := fun _ _ _ => none }

def connectErr : GoErr := { msg := "connection refused" }

def createErr : GoErr := { msg := "permission denied for schema public" }

def seedErr : GoErr := { msg := "could not extend file" }

/-- `pgxpool.Connect` fails. -/
def envConnectFail : Env := { connect := some connectErr, exec := fun _ _ _ => none }

/-- The schema creation fails. -/
def envCreateFail : Env :=
  { connect := none,
    exec := fun _ q _ =>
      match q with
      | Stmt.queryCreateTable => some createErr
      | _ => none }

/-- The schema creation succeeds and the seed fails. -/
def envSeedFail : Env :=
  { connect := none,
    exec := fun _ q _ =>
      match q with
      | Stmt.queryLoadData => some seedErr
      | _ => none }

/-- A full run: setup, cancellation, exit of the loop, the two deferred calls. -/
def schedCancelled : List Event :=
  [Event.main, Event.main, Event.main, Event.cancel, Event.done, Event.main, Event.main,
   Event.main]

/-- One worker is admitted, has run its query and has slept. -/
def schedOneWorker : List Event :=
  [Event.main, Event.main, Event.main, Event.send, Event.workerExec, Event.workerWake]

/-- The state `schedOneWorker` leads to under `cfgOne` and `envOk`. -/
def stateOneWorker : State :=
  { pc := Pc.select, defers := [Deferred.cleanup, Deferred.poolClose], cancelled := false,
    interval := 10000000, guardLen := 1, running := 0, sleeping := 0, releasing := 1,
    trace := [Effect.connect "host=127.0.0.1",
      Effect.exec Actor.main Stmt.queryCreateTable [],
      Effect.exec Actor.main Stmt.queryLoadData [2000],
      Effect.send,
      Effect.exec Actor.worker Stmt.querySelectData [],
      Effect.sleep 10000000] }

/-- Setup that fails in `prepare`: connect, `prepare`, the deferred close, the return. -/
def schedSetupFails : List Event := [Event.main, Event.main, Event.main, Event.main]

/-- The state `schedSetupFails` leads to under `cfgOne` and `envCreateFail`. -/
def stateCreateFailed : State :=
  { pc := Pc.finished (Outcome.ret (some createErr)), defers := [], cancelled := false,
    interval := 0, guardLen := 0, running := 0, sleeping := 0, releasing := 0,
    trace := [Effect.connect "host=127.0.0.1",
      Effect.exec Actor.main Stmt.queryCreateTable [],
      Effect.close] }

/-- The state `schedSetupFails` leads to under `cfgOne` and `envSeedFail`. -/
def stateSeedFailed : State :=
  { pc := Pc.finished (Outcome.ret (some seedErr)), defers := [], cancelled := false,
    interval := 0, guardLen := 0, running := 0, sleeping := 0, releasing := 0,
    trace := [Effect.connect "host=127.0.0.1",
      Effect.exec Actor.main Stmt.queryCreateTable [],
      Effect.exec Actor.main Stmt.queryLoadData [2000],
      Effect.close] }

/-- Setup, one worker admitted, then the cancellation. -/
def schedCancelledBusy : List Event :=
  [Event.main, Event.main, Event.main, Event.send, Event.cancel]

/-- The state `schedCancelledBusy` leads to under `cfgOne` and `envOk`: the loop is
running, the context is cancelled and one operation is in flight. -/
def stateCancelledBusy : State :=
  { pc := Pc.select, defers := [Deferred.cleanup, Deferred.poolClose], cancelled := true,
    interval := 10000000, guardLen := 1, running := 1, sleeping := 0, releasing := 0,
    trace := [Effect.connect "host=127.0.0.1",
      Effect.exec Actor.main Stmt.queryCreateTable [],
      Effect.exec Actor.main Stmt.queryLoadData [2000],
      Effect.send] }

/-- The state `schedCancelled` leads to under `cfgOne` and `envOk`. -/
def stateCancelledIdle : State :=
  { pc := Pc.finished (Outcome.ret none), defers := [], cancelled := true,
    interval := 10000000, guardLen := 0, running := 0, sleeping := 0, releasing := 0,
    trace := [Effect.connect "host=127.0.0.1",
      Effect.exec Actor.main Stmt.queryCreateTable [],
      Effect.exec Actor.main Stmt.queryLoadData [2000],
      Effect.exec Actor.main Stmt.queryDropTable [],
      Effect.close] }

/-- Setup and the unwinding after the panic of the division. -/
def schedPanic : List Event :=
  [Event.main, Event.main, Event.main, Event.main, Event.main, Event.main]

/-- The state `schedPanic` leads to under `cfgRateZero` and `envOk`. -/
def stateRateZero : State :=
  { pc := Pc.finished Outcome.panic, defers := [], cancelled := false,
    interval := 0, guardLen := 0, running := 0, sleeping := 0, releasing := 0,
    trace := [Effect.connect "host=127.0.0.1",
      Effect.exec Actor.main Stmt.queryCreateTable [],
      Effect.exec Actor.main Stmt.queryLoadData [2000],
      Effect.exec Actor.main Stmt.queryDropTable [],
      Effect.close] }

/-- The context is cancelled before `Run` is called; then the setup. -/
def schedCancelFirst : List Event := [Event.cancel, Event.main, Event.main, Event.main]

/-- The state `schedCancelFirst` leads to under `cfgOne` and `envOk`: the loop starts
with the cancellation raised and the one slot free. -/
def stateCancelledAtLoop : State :=
  { pc := Pc.select, defers := [Deferred.cleanup, Deferred.poolClose], cancelled := true,
    interval := 10000000, guardLen := 0, running := 0, sleeping := 0, releasing := 0,
    trace := [Effect.connect "host=127.0.0.1",
      Effect.exec Actor.main Stmt.queryCreateTable [],
      Effect.exec Actor.main Stmt.queryLoadData [2000]] }

/-- The `select` takes the send first and the cancellation second. -/
def schedSendThenDone : List Event :=
  [Event.send, Event.done, Event.main, Event.main, Event.main]

/-- The state `schedSendThenDone` leads to from `stateCancelledAtLoop`. -/
def stateSentAfterCancel : State :=
  { pc := Pc.finished (Outcome.ret none), defers := [], cancelled := true,
    interval := 10000000, guardLen := 1, running := 1, sleeping := 0, releasing := 0,
    trace := [Effect.connect "host=127.0.0.1",
      Effect.exec Actor.main Stmt.queryCreateTable [],
      Effect.exec Actor.main Stmt.queryLoadData [2000],
      Effect.send,
      Effect.exec Actor.main Stmt.queryDropTable [],
      Effect.close] }

/-- The three steps of the setup. -/
def schedSetup : List Event := [Event.main, Event.main, Event.main]

/-- The state `schedSetup` leads to under `cfgJobsZero` and `envOk`. -/
def stateIdleLoop : State :=
  { pc := Pc.select, defers := [Deferred.cleanup, Deferred.poolClose], cancelled := false,
    interval := 10000000, guardLen := 0, running := 0, sleeping := 0, releasing := 0,
    trace := [Effect.connect "host=127.0.0.1",
      Effect.exec Actor.main Stmt.queryCreateTable [],
      Effect.exec Actor.main Stmt.queryLoadData [2000]] }

/-- A trace in which one `Exec` call was made before `prepare`. -/
def traceOneExec : List Effect :=
  [Effect.connect "host=127.0.0.1", Effect.exec Actor.worker Stmt.querySelectData []]

/-! ## The function and the relation agree -/

theorem step_sound {cfg : Config} {env : Env} {s t : State} {e : Event}
    (h : step cfg env s e = some t) : Step cfg env s e t := by
  cases e
  case cancel =>
    simp only [step, Option.some.injEq] at h
    subst h; exact Step.cancel s
  case main =>
    simp only [step, stepMain] at h
    split at h
    · split at h
      · simp only [Option.some.injEq] at h; subst h
        exact Step.connectFail s _ (by assumption) (by assumption)
      · simp only [Option.some.injEq] at h; subst h
        exact Step.connectOk s (by assumption) (by assumption)
    · split at h
      · simp only [Option.some.injEq] at h; subst h
        exact Step.prepareFail s _ _ (by assumption) (by assumption)
      · simp only [Option.some.injEq] at h; subst h
        exact Step.prepareOk s _ (by assumption) (by assumption)
    · split at h
      · simp only [Option.some.injEq] at h; subst h
        exact Step.intervalPanic s (by assumption) (by assumption)
      · simp only [Option.some.injEq] at h; subst h
        exact Step.intervalOk s _ (by assumption) (by assumption)
    · exact absurd h (by simp)
    · split at h
      · simp only [Option.some.injEq] at h; subst h
        exact Step.exitFinish s _ (by assumption) (by assumption)
      · simp only [Option.some.injEq] at h; subst h
        exact Step.exitCleanup s _ _ (by assumption) (by assumption)
      · simp only [Option.some.injEq] at h; subst h
        exact Step.exitClose s _ _ (by assumption) (by assumption)
    · exact absurd h (by simp)
  case send =>
    simp only [step, stepSend] at h
    split at h
    · split_ifs at h with h1 h2
      · simp only [Option.some.injEq] at h; subst h
        exact Step.sendHandoff s (by assumption) h1.1 h1.2
      · simp only [Option.some.injEq] at h; subst h
        exact Step.sendBuffer s (by assumption) h1 h2
    · exact absurd h (by simp)
  case done =>
    simp only [step, stepDone] at h
    split at h
    · split_ifs at h with h1
      simp only [Option.some.injEq] at h; subst h
      exact Step.done s (by assumption) h1
    · exact absurd h (by simp)
  case workerExec =>
    simp only [step, stepWorkerExec] at h
    split_ifs at h with h1
    simp only [Option.some.injEq] at h; subst h
    exact Step.workerExec s h1
  case workerWake =>
    simp only [step, stepWorkerWake] at h
    split_ifs at h with h1
    simp only [Option.some.injEq] at h; subst h
    exact Step.workerWake s h1
  case workerRecv =>
    simp only [step, stepWorkerRecv] at h
    split_ifs at h with h1
    simp only [Option.some.injEq] at h; subst h
    exact Step.workerRecv s h1.1 h1.2

theorem step_complete {cfg : Config} {env : Env} {s t : State} {e : Event}
    (h : Step cfg env s e t) : step cfg env s e = some t := by
  cases h <;> simp_all [step, stepMain, stepSend, stepDone, stepWorkerExec, stepWorkerWake,
    stepWorkerRecv]

theorem step_iff {cfg : Config} {env : Env} {s t : State} {e : Event} :
    step cfg env s e = some t ↔ Step cfg env s e t :=
  ⟨step_sound, step_complete⟩



@[simp] theorem poolExec_snd (env : Env) (who : Actor) (q : Stmt) (args : List Int)
    (tr : List Effect) : (poolExec env who q args tr).2 = tr ++ [Effect.exec who q args] := rfl

@[simp] theorem poolExec_fst (env : Env) (who : Actor) (q : Stmt) (args : List Int)
    (tr : List Effect) : (poolExec env who q args tr).1 = env.exec (execCount tr) q args := rfl

@[simp] theorem cleanup_snd (env : Env) (tr : List Effect) :
    (cleanup env tr).2 = tr ++ [Effect.exec Actor.main Stmt.queryDropTable []] := by
  unfold cleanup
  split <;> simp_all [poolExec]

@[simp] theorem execCount_append_exec (tr : List Effect) (who : Actor) (q : Stmt)
    (args : List Int) : execCount (tr ++ [Effect.exec who q args]) = execCount tr + 1 := by
  simp [execCount, Effect.isExec]

theorem prepare_eq (cfg : Config) (env : Env) (tr : List Effect) :
    prepare cfg env tr =
      match env.exec (execCount tr) Stmt.queryCreateTable [] with
      | some err => (some err, tr ++ [Effect.exec Actor.main Stmt.queryCreateTable []])
      | none =>
        match env.exec (execCount tr + 1) Stmt.queryLoadData
            [goMul 1000 cfg.TempFilesScaleFactor] with
        | some err => (some err, tr ++ [Effect.exec Actor.main Stmt.queryCreateTable [],
            Effect.exec Actor.main Stmt.queryLoadData [goMul 1000 cfg.TempFilesScaleFactor]])
        | none => (none, tr ++ [Effect.exec Actor.main Stmt.queryCreateTable [],
            Effect.exec Actor.main Stmt.queryLoadData [goMul 1000 cfg.TempFilesScaleFactor]]) := by
  rcases h1 : env.exec (execCount tr) Stmt.queryCreateTable [] with _ | e1
  · rcases h2 : env.exec (execCount tr + 1) Stmt.queryLoadData
        [goMul 1000 cfg.TempFilesScaleFactor] with _ | e2
    · simp [prepare, poolExec, h1, h2]
    · simp [prepare, poolExec, h1, h2]
  · simp [prepare, poolExec, h1]

theorem prepare_snd (cfg : Config) (env : Env) (tr : List Effect) :
    (prepare cfg env tr).2 = tr ++ [Effect.exec Actor.main Stmt.queryCreateTable []] ∨
    (prepare cfg env tr).2 = tr ++ [Effect.exec Actor.main Stmt.queryCreateTable [],
      Effect.exec Actor.main Stmt.queryLoadData [goMul 1000 cfg.TempFilesScaleFactor]] := by
  rw [prepare_eq]
  rcases env.exec (execCount tr) Stmt.queryCreateTable [] with _ | e1
  · rcases env.exec (execCount tr + 1) Stmt.queryLoadData
        [goMul 1000 cfg.TempFilesScaleFactor] with _ | e2
    · right; rfl
    · right; rfl
  · left; rfl

@[simp] theorem acquired_nil : acquired [] = 0 := rfl
@[simp] theorem released_nil : released [] = 0 := rfl
@[simp] theorem cleanupCount_nil : cleanupCount [] = 0 := rfl
@[simp] theorem closeCount_nil : closeCount [] = 0 := rfl
@[simp] theorem workloadCount_nil : workloadCount [] = 0 := rfl
@[simp] theorem acquired_append (a b : List Effect) :
    acquired (a ++ b) = acquired a + acquired b := by simp [acquired]
@[simp] theorem released_append (a b : List Effect) :
    released (a ++ b) = released a + released b := by simp [released]
@[simp] theorem cleanupCount_append (a b : List Effect) :
    cleanupCount (a ++ b) = cleanupCount a + cleanupCount b := by simp [cleanupCount]
@[simp] theorem closeCount_append (a b : List Effect) :
    closeCount (a ++ b) = closeCount a + closeCount b := by simp [closeCount]
@[simp] theorem workloadCount_append (a b : List Effect) :
    workloadCount (a ++ b) = workloadCount a + workloadCount b := by simp [workloadCount]
@[simp] theorem acquired_cons (x : Effect) (a : List Effect) :
    acquired (x :: a) = (if x = Effect.send then 1 else 0) + acquired a := by
  simp [acquired, List.count_cons, Nat.add_comm]
@[simp] theorem released_cons (x : Effect) (a : List Effect) :
    released (x :: a) = (if x = Effect.release then 1 else 0) + released a := by
  simp [released, List.count_cons, Nat.add_comm]
@[simp] theorem cleanupCount_cons (x : Effect) (a : List Effect) :
    cleanupCount (x :: a) =
      (if x = Effect.exec Actor.main Stmt.queryDropTable [] then 1 else 0) + cleanupCount a := by
  simp [cleanupCount, List.count_cons, Nat.add_comm]
@[simp] theorem closeCount_cons (x : Effect) (a : List Effect) :
    closeCount (x :: a) = (if x = Effect.close then 1 else 0) + closeCount a := by
  simp [closeCount, List.count_cons, Nat.add_comm]
@[simp] theorem workloadCount_cons (x : Effect) (a : List Effect) :
    workloadCount (x :: a) =
      (if x = Effect.exec Actor.worker Stmt.querySelectData [] then 1 else 0)
        + workloadCount a := by
  simp [workloadCount, List.count_cons, Nat.add_comm]

theorem runFrom_append (cfg : Config) (env : Env) (s : State) (a b : List Event) :
    runFrom cfg env s (a ++ b) = (runFrom cfg env s a).bind (fun t => runFrom cfg env t b) := by
  induction a generalizing s with
  | nil => rfl
  | cons e es ih =>
    simp only [List.cons_append, runFrom]
    cases step cfg env s e with
    | none => rfl
    | some s1 => exact ih s1

theorem runFrom_preserves {cfg : Config} {env : Env} (P : State → Prop)
    (hstep : ∀ s e t, P s → Step cfg env s e t → P t) :
    ∀ (sched : List Event) (s t : State), P s → runFrom cfg env s sched = some t → P t := by
  intro sched
  induction sched with
  | nil => intro s t hs h; simp only [runFrom, Option.some.injEq] at h; exact h ▸ hs
  | cons e es ih =>
    intro s t hs h
    simp only [runFrom] at h
    cases hst : step cfg env s e with
    | none => rw [hst] at h; exact absurd h (by simp)
    | some s1 =>
      rw [hst] at h
      exact ih s1 t (hstep s e s1 hs (step_sound hst)) h

theorem prepare_counts {cfg : Config} {env : Env} {tr tr1 : List Effect} {r : Option GoErr}
    (h : prepare cfg env tr = (r, tr1)) :
    acquired tr1 = acquired tr ∧ released tr1 = released tr ∧
    workloadCount tr1 = workloadCount tr ∧ cleanupCount tr1 = cleanupCount tr ∧
    closeCount tr1 = closeCount tr := by
  have h2 : tr1 = (prepare cfg env tr).2 := by rw [h]
  rcases prepare_snd cfg env tr with h3 | h3 <;> (rw [h3] at h2; subst h2; simp)

theorem gateInv_step {cfg : Config} {env : Env} {s t : State} {e : Event}
    (hs : GateInv cfg s) (h : Step cfg env s e t) : GateInv cfg t := by
  obtain ⟨h1, h2, h3, h4⟩ := hs
  simp only [State.inFlight, State.entered] at h1 h4
  cases h
  case cancel => exact ⟨h1, h2, h3, h4⟩
  case connectFail err hpc hc =>
    have hz := h4 (by simp [hpc])
    simp only [GateInv, State.inFlight, State.entered]
    refine ⟨by omega, by omega, by simp; omega, fun _ => by simp; omega⟩
  case connectOk hpc hc =>
    have hz := h4 (by simp [hpc])
    simp only [GateInv, State.inFlight, State.entered]
    refine ⟨by omega, by omega, by simp; omega, fun _ => by simp; omega⟩
  case prepareFail err tr hpc hp =>
    have hz := h4 (by simp [hpc])
    obtain ⟨p1, p2, p3, -, -⟩ := prepare_counts hp
    simp only [GateInv, State.inFlight, State.entered]
    refine ⟨by omega, by omega, by omega, fun _ => by omega⟩
  case prepareOk tr hpc hp =>
    have hz := h4 (by simp [hpc])
    obtain ⟨p1, p2, p3, -, -⟩ := prepare_counts hp
    simp only [GateInv, State.inFlight, State.entered]
    refine ⟨by omega, by omega, by omega, fun _ => by omega⟩
  case intervalPanic hpc hd =>
    have hz := h4 (by simp [hpc])
    simp only [GateInv, State.inFlight, State.entered]
    refine ⟨by omega, by omega, by omega, fun _ => by omega⟩
  case intervalOk d hpc hd =>
    have hz := h4 (by simp [hpc])
    simp only [GateInv, State.inFlight, State.entered]
    refine ⟨by omega, by omega, by omega, fun hne => by simp at hne⟩
  case exitFinish o hpc hds =>
    simp only [GateInv, State.inFlight, State.entered]
    refine ⟨h1, h2, h3, fun hne => h4 ?_⟩
    simp only [hpc, Pc.exit.injEq, Pc.finished.injEq, not_or] at hne ⊢
    exact ⟨by simp, hne.2.2, by simp⟩
  case exitCleanup o ds hpc hds =>
    simp only [GateInv, State.inFlight, State.entered]
    refine ⟨h1, h2, by simp; omega, fun hne => ?_⟩
    have hz := h4 hne
    simp; omega
  case exitClose o ds hpc hds =>
    simp only [GateInv, State.inFlight, State.entered]
    refine ⟨h1, h2, by simp; omega, fun hne => ?_⟩
    have hz := h4 hne
    simp; omega
  case sendHandoff hpc hlen hrecv =>
    simp only [GateInv, State.inFlight, State.entered]
    refine ⟨by omega, by omega, by simp; omega, fun hne => absurd (Or.inl hpc) hne⟩
  case sendBuffer hpc hno hlen =>
    simp only [GateInv, State.inFlight, State.entered]
    refine ⟨by omega, by omega, by simp; omega, fun hne => absurd (Or.inl hpc) hne⟩
  case done hpc hc =>
    simp only [GateInv, State.inFlight, State.entered]
    exact ⟨h1, h2, h3, fun hne => by simp at hne⟩
  case workerExec hrun =>
    simp only [GateInv, State.inFlight, State.entered]
    refine ⟨by omega, by omega, by simp; omega, fun hne => ?_⟩
    have hz := h4 hne
    omega
  case workerWake hsl =>
    simp only [GateInv, State.inFlight, State.entered]
    refine ⟨by omega, by omega, by simp; omega, fun hne => ?_⟩
    have hz := h4 hne
    omega
  case workerRecv hrel hlen =>
    simp only [GateInv, State.inFlight, State.entered]
    refine ⟨by omega, by omega, by simp; omega, fun hne => ?_⟩
    have hz := h4 hne
    omega

theorem gateInv_init (cfg : Config) : GateInv cfg init := by
  simp [GateInv, init, State.inFlight, State.entered]

theorem phaseInv_worker {cfg : Config} {env : Env} {s t : State} (hent : s.entered)
    (hs : PhaseInv cfg env s) (hpc : t.pc = s.pc) (hds : t.defers = s.defers)
    (hi : t.interval = s.interval) (h1 : cleanupCount t.trace = cleanupCount s.trace)
    (h2 : closeCount t.trace = closeCount s.trace) : PhaseInv cfg env t := by
  rcases hent with hp | hp | hp
  · simp only [PhaseInv, hpc, hp, hds, hi, h1, h2] at hs ⊢
    exact hs
  · simp only [PhaseInv, hpc, hp, hds, hi, h1, h2, Unwinding, LoopOutcome] at hs ⊢
    exact hs
  · simp only [PhaseInv, hpc, hp, hds, hi, h1, h2, Ended, LoopOutcome] at hs ⊢
    exact hs

theorem phaseInv_step {cfg : Config} {env : Env} {s t : State} {e : Event}
    (hg : GateInv cfg s) (hs : PhaseInv cfg env s) (h : Step cfg env s e t) :
    PhaseInv cfg env t := by
  obtain ⟨h1, h2, h3, h4⟩ := hg
  simp only [State.inFlight, State.entered] at h1 h4
  cases h
  case cancel => exact hs
  case connectFail err hpc hc =>
    simp only [PhaseInv, hpc] at hs ⊢
    simp [Ended, hc, hs.1]
  case connectOk hpc hc =>
    simp only [PhaseInv, hpc] at hs ⊢
    simp [hc, hs.1, hs.2]
  case prepareFail err tr hpc hp =>
    simp only [PhaseInv, hpc] at hs ⊢
    obtain ⟨c1, c2, c3⟩ := hs
    rw [c2] at hp
    have hp1 : (prepareAt cfg env).1 = some err := by simp [prepareAt, hp]
    obtain ⟨-, -, -, p4, p5⟩ := prepare_counts hp
    refine ⟨c1, Or.inl ⟨err, hp1, rfl, ?_, Or.inl ⟨c3, ?_⟩⟩⟩
    · simpa using p4
    · simpa using p5
  case prepareOk tr hpc hp =>
    simp only [PhaseInv, hpc] at hs ⊢
    obtain ⟨c1, c2, c3⟩ := hs
    rw [c2] at hp
    have hp1 : (prepareAt cfg env).1 = none := by simp [prepareAt, hp]
    obtain ⟨-, -, -, p4, p5⟩ := prepare_counts hp
    refine ⟨c1, hp1, by simp [c3], ?_, ?_⟩
    · simpa using p4
    · simpa using p5
  case intervalPanic hpc hd =>
    simp only [PhaseInv, hpc] at hs ⊢
    obtain ⟨c1, c2, c3, c4, c5⟩ := hs
    exact ⟨c1, Or.inr ⟨c2, Or.inl ⟨hd, rfl⟩, Or.inl ⟨c3, c4, c5⟩⟩⟩
  case intervalOk d hpc hd =>
    simp only [PhaseInv, hpc] at hs ⊢
    obtain ⟨c1, c2, c3, c4, c5⟩ := hs
    exact ⟨c1, c2, hd, c3, c4, c5⟩
  case exitFinish o hpc hds =>
    simp only [PhaseInv, hpc] at hs ⊢
    obtain ⟨c1, c2⟩ := hs
    refine Or.inr ⟨c1, ?_⟩
    rcases c2 with ⟨err, a1, a2, a3, a4⟩ | ⟨a1, a2, a3⟩
    · rcases a4 with ⟨b1, b2⟩ | ⟨b1, b2⟩
      · rw [hds] at b1; exact absurd b1 (by simp)
      · exact Or.inl ⟨err, a1, a2, a3, b2⟩
    · rcases a3 with ⟨b1, b2, b3⟩ | ⟨b1, b2, b3⟩ | ⟨b1, b2, b3⟩
      · rw [hds] at b1; exact absurd b1 (by simp)
      · rw [hds] at b1; exact absurd b1 (by simp)
      · exact Or.inr ⟨a1, a2, b2, b3⟩
  case exitCleanup o ds hpc hds =>
    simp only [PhaseInv, hpc] at hs ⊢
    obtain ⟨c1, c2⟩ := hs
    refine ⟨c1, ?_⟩
    rcases c2 with ⟨err, a1, a2, a3, a4⟩ | ⟨a1, a2, a3⟩
    · rcases a4 with ⟨b1, b2⟩ | ⟨b1, b2⟩
      · rw [hds] at b1; exact absurd b1 (by simp)
      · rw [hds] at b1; exact absurd b1 (by simp)
    · rcases a3 with ⟨b1, b2, b3⟩ | ⟨b1, b2, b3⟩ | ⟨b1, b2, b3⟩
      · rw [hds] at b1
        simp only [List.cons.injEq, true_and] at b1
        exact Or.inr ⟨a1, a2, Or.inr (Or.inl ⟨b1, by simp [b2], by simp [b3]⟩)⟩
      · rw [hds] at b1; exact absurd b1 (by simp)
      · rw [hds] at b1; exact absurd b1 (by simp)
  case exitClose o ds hpc hds =>
    simp only [PhaseInv, hpc] at hs ⊢
    obtain ⟨c1, c2⟩ := hs
    refine ⟨c1, ?_⟩
    rcases c2 with ⟨err, a1, a2, a3, a4⟩ | ⟨a1, a2, a3⟩
    · rcases a4 with ⟨b1, b2⟩ | ⟨b1, b2⟩
      · rw [hds] at b1
        simp only [List.cons.injEq, true_and] at b1
        exact Or.inl ⟨err, a1, a2, by simp [a3], Or.inr ⟨b1, by simp [b2]⟩⟩
      · rw [hds] at b1; exact absurd b1 (by simp)
    · rcases a3 with ⟨b1, b2, b3⟩ | ⟨b1, b2, b3⟩ | ⟨b1, b2, b3⟩
      · rw [hds] at b1; exact absurd b1 (by simp)
      · rw [hds] at b1
        simp only [List.cons.injEq, true_and] at b1
        exact Or.inr ⟨a1, a2, Or.inr (Or.inr ⟨b1, by simp [b2], by simp [b3]⟩)⟩
      · rw [hds] at b1; exact absurd b1 (by simp)
  case sendHandoff hpc hlen hrecv =>
    simp only [PhaseInv, hpc] at hs ⊢
    obtain ⟨c1, c2, c3, c4, c5, c6⟩ := hs
    exact ⟨c1, c2, c3, c4, by simp [c5], by simp [c6]⟩
  case sendBuffer hpc hno hlen =>
    simp only [PhaseInv, hpc] at hs ⊢
    obtain ⟨c1, c2, c3, c4, c5, c6⟩ := hs
    exact ⟨c1, c2, c3, c4, by simp [c5], by simp [c6]⟩
  case done hpc hc =>
    simp only [PhaseInv, hpc] at hs ⊢
    obtain ⟨c1, c2, c3, c4, c5, c6⟩ := hs
    exact ⟨c1, Or.inr ⟨c2, Or.inr ⟨c3, rfl⟩, Or.inl ⟨c4, c5, c6⟩⟩⟩
  case workerExec hrun =>
    have hent : s.entered := by
      by_contra hne
      have hz := h4 (by simpa [State.entered] using hne)
      omega
    exact phaseInv_worker hent hs rfl rfl rfl (by simp) (by simp)
  case workerWake hsl =>
    have hent : s.entered := by
      by_contra hne
      have hz := h4 (by simpa [State.entered] using hne)
      omega
    exact phaseInv_worker hent hs rfl rfl rfl (by simp) (by simp)
  case workerRecv hrel hlen =>
    have hent : s.entered := by
      by_contra hne
      have hz := h4 (by simpa [State.entered] using hne)
      omega
    exact phaseInv_worker hent hs rfl rfl rfl (by simp) (by simp)

theorem phaseInv_init (cfg : Config) (env : Env) : PhaseInv cfg env init := by
  simp [PhaseInv, init]

/-- Both invariants hold in every state an execution of `Run` reaches. -/
theorem run_inv {cfg : Config} {env : Env} {sched : List Event} {s : State}
    (h : Run cfg env sched = some s) : GateInv cfg s ∧ PhaseInv cfg env s :=
  runFrom_preserves (fun s => GateInv cfg s ∧ PhaseInv cfg env s)
    (fun _ _ _ hs hst => ⟨gateInv_step hs.1 hst, phaseInv_step hs.1 hs.2 hst⟩)
    sched init s ⟨gateInv_init cfg, phaseInv_init cfg env⟩ h

theorem calcInterval_eq_some {cfg : Config} (h : cfg.TempFilesRate ≠ 0) :
    calcInterval cfg = some (Int.tdiv 1000000000 cfg.TempFilesRate) := by
  simp [calcInterval, goDiv, h]

theorem calcInterval_eq_none {cfg : Config} :
    calcInterval cfg = none ↔ cfg.TempFilesRate = 0 := by
  simp [calcInterval, goDiv]

/-- With a rate other than zero, a run that ends returns the error of the setup. -/
theorem ended_result {cfg : Config} {env : Env} {s : State} {o : Outcome}
    (hrate : cfg.TempFilesRate ≠ 0) (h : Ended cfg env s o) :
    o = Outcome.ret (match env.connect with
      | some err => some err
      | none => (prepareAt cfg env).1) := by
  rcases h with ⟨err, a1, a2, -, -⟩ | ⟨a1, ⟨err, b1, b2, -, -⟩ | ⟨b1, b2, -, -⟩⟩
  · simp [a1, a2]
  · simp [a1, b1, b2]
  · rcases b2 with ⟨c1, -⟩ | ⟨-, c2⟩
    · exact absurd (calcInterval_eq_none.mp c1) hrate
    · simp [a1, b1, c2]

/-- Whatever the collaborators answer, some schedule makes `Run` end. -/
theorem run_can_end (cfg : Config) (env : Env) :
    ∃ sched s o, Run cfg env sched = some s ∧ s.result = some o := by
  rcases hc : env.connect with _ | cerr
  · rcases hp : prepare cfg env [Effect.connect cfg.PostgresConninfo] with ⟨r, tr⟩
    rcases r with _ | perr
    · rcases hd : calcInterval cfg with _ | d
      · refine ⟨[Event.main, Event.main, Event.main, Event.main, Event.main, Event.main], ?_⟩
        simp [Run, runFrom, step, stepMain, init, hc, hp, hd, State.result]
      · refine ⟨schedCancelled, ?_⟩
        simp [schedCancelled, Run, runFrom, step, stepMain, stepDone, init, hc, hp, hd,
          State.result]
    · refine ⟨[Event.main, Event.main, Event.main, Event.main], ?_⟩
      simp [Run, runFrom, step, stepMain, init, hc, hp, State.result]
  · refine ⟨[Event.main], ?_⟩
    simp [Run, runFrom, step, stepMain, init, hc, State.result]

theorem result_some {s : State} {o : Outcome} (h : s.result = some o) :
    s.pc = Pc.finished o := by
  simp only [State.result] at h
  split at h
  · simp only [Option.some.injEq] at h
    subst h; assumption
  · exact absurd h (by simp)

/-! ## C2: the concurrency gate -/

/-- C2: with capacity `Jobs` at least 1, in every reachable state of the step relation
the slots released are at most the slots acquired, their difference is the number of
operations in flight and is at most `Jobs`, and a worker that stands at `<-guard` can
take its step: its token is in the channel. -/
theorem gate_capacity_invariant (cfg : Config) (env : Env) (s : State)
    (_hjobs : 1 ≤ cfg.Jobs) (hreach : Reachable cfg env s) :
    released s.trace ≤ acquired s.trace ∧
    acquired s.trace - released s.trace ≤ cfg.Jobs ∧
    s.inFlight = acquired s.trace - released s.trace ∧
    s.inFlight ≤ cfg.Jobs ∧
    (0 < s.releasing → ∃ t, Step cfg env s Event.workerRecv t) := by
  obtain ⟨sched, hrun⟩ := hreach
  obtain ⟨h1, h2, h3, -⟩ := (run_inv hrun).1
  simp only [State.inFlight] at h1 ⊢
  refine ⟨by omega, by omega, by omega, by omega, fun hrel => ?_⟩
  exact ⟨_, Step.workerRecv s hrel (by omega)⟩

/-- C2 at a concrete input: one job, one worker standing at `<-guard`. -/
theorem gate_capacity_invariant_witness :
    1 ≤ cfgOne.Jobs ∧ Run cfgOne envOk schedOneWorker = some stateOneWorker ∧
    (released stateOneWorker.trace ≤ acquired stateOneWorker.trace ∧
     acquired stateOneWorker.trace - released stateOneWorker.trace ≤ cfgOne.Jobs ∧
     stateOneWorker.inFlight = acquired stateOneWorker.trace - released stateOneWorker.trace ∧
     stateOneWorker.inFlight ≤ cfgOne.Jobs ∧
     (0 < stateOneWorker.releasing →
       ∃ t, Step cfgOne envOk stateOneWorker Event.workerRecv t)) :=
  ⟨by decide, rfl,
    gate_capacity_invariant cfgOne envOk stateOneWorker (by decide) ⟨schedOneWorker, rfl⟩⟩

/-! ## C3: a failing `prepare` -/

/-- Appending a schedule to an execution of `Run`. -/
theorem run_append {cfg : Config} {env : Env} {sched more : List Event} {s t : State}
    (h1 : Run cfg env sched = some s) (h2 : runFrom cfg env s more = some t) :
    Run cfg env (sched ++ more) = some t := by
  simp only [Run] at h1 ⊢
  rw [runFrom_append, h1]
  exact h2

/-- When `prepare` fails, `Run` goes on to its end by sequential steps alone. -/
theorem prepare_failure_progress {cfg : Config} {env : Env} {s : State} {err : GoErr}
    (hc : env.connect = none) (hp : (prepareAt cfg env).1 = some err)
    (hinv : PhaseInv cfg env s) :
    ∃ k t o, k ≤ 4 ∧ runFrom cfg env s (List.replicate k Event.main) = some t ∧
      t.pc = Pc.finished o := by
  rcases hpp : prepare cfg env [Effect.connect cfg.PostgresConninfo] with ⟨r, tr⟩
  have hr : r = some err := by
    have : (prepareAt cfg env).1 = r := by simp [prepareAt, hpp]
    rw [← this, hp]
  subst hr
  cases hpc : s.pc with
  | connect =>
    simp only [PhaseInv, hpc] at hinv
    refine ⟨4, ?_⟩
    simp [List.replicate, runFrom, step, stepMain, hpc, hc, hinv.1, hinv.2, hpp]
  | prepare =>
    simp only [PhaseInv, hpc] at hinv
    refine ⟨3, ?_⟩
    simp [List.replicate, runFrom, step, stepMain, hpc, hinv.2.1, hinv.2.2, hpp]
  | interval =>
    simp only [PhaseInv, hpc] at hinv
    rw [hinv.2.1] at hp
    exact absurd hp (by simp)
  | select =>
    simp only [PhaseInv, hpc] at hinv
    rw [hinv.2.1] at hp
    exact absurd hp (by simp)
  | exit o =>
    simp only [PhaseInv, hpc] at hinv
    rcases hinv.2 with ⟨e1, -, -, -, a4⟩ | ⟨a1, -⟩
    · rcases a4 with ⟨b1, -⟩ | ⟨b1, -⟩
      · refine ⟨2, ?_⟩
        simp [List.replicate, runFrom, step, stepMain, hpc, b1]
      · refine ⟨1, ?_⟩
        simp [List.replicate, runFrom, step, stepMain, hpc, b1]
    · rw [a1] at hp
      exact absurd hp (by simp)
  | finished o =>
    exact ⟨0, s, o, by omega, rfl, hpc⟩

/-- C3: when connecting succeeds and `prepare` fails, no reachable state of `Run` is in
the loop, none has admitted an operation or executed the workload query, an execution
that ends returns the error of `prepare` with the pool closed exactly once, and from
every reachable state at most four sequential steps of `Run` lead to that end. -/
theorem prepare_failure_aborts (cfg : Config) (env : Env) (sched : List Event) (s : State)
    (err : GoErr) (hc : env.connect = none) (hp : (prepareAt cfg env).1 = some err)
    (hrun : Run cfg env sched = some s) :
    s.pc ≠ Pc.select ∧ acquired s.trace = 0 ∧ workloadCount s.trace = 0 ∧ s.inFlight = 0 ∧
    (∀ o, s.result = some o → o = Outcome.ret (some err) ∧ closeCount s.trace = 1) ∧
    (∃ k t, k ≤ 4 ∧ runFrom cfg env s (List.replicate k Event.main) = some t ∧
      t.result = some (Outcome.ret (some err)) ∧ closeCount t.trace = 1 ∧
      acquired t.trace = 0 ∧ workloadCount t.trace = 0) := by
  have key : ∀ (sc : List Event) (u : State), Run cfg env sc = some u →
      u.pc ≠ Pc.select ∧ acquired u.trace = 0 ∧ workloadCount u.trace = 0 ∧ u.inFlight = 0 ∧
      (∀ o, u.pc = Pc.finished o → o = Outcome.ret (some err) ∧ closeCount u.trace = 1) := by
    intro sc u hu
    obtain ⟨⟨g1, -, -, g4⟩, hph⟩ := run_inv hu
    have hsel : u.pc ≠ Pc.select := by
      intro hpc
      simp only [PhaseInv, hpc] at hph
      rw [hph.2.1] at hp
      exact absurd hp (by simp)
    have hne : ¬ u.entered := by
      rintro (hpc | hpc | hpc)
      · exact hsel hpc
      · simp only [PhaseInv, hpc] at hph
        rcases hph.2 with ⟨e1, -, a2, -⟩ | ⟨a1, -⟩
        · exact absurd a2 (by simp)
        · rw [a1] at hp; exact absurd hp (by simp)
      · simp only [PhaseInv, hpc] at hph
        rcases hph with ⟨e1, a1, -⟩ | ⟨-, ⟨e1, -, a2, -⟩ | ⟨a1, -⟩⟩
        · rw [hc] at a1; exact absurd a1 (by simp)
        · exact absurd a2 (by simp)
        · rw [a1] at hp; exact absurd hp (by simp)
    obtain ⟨z1, -, z3, z4⟩ := g4 hne
    refine ⟨hsel, z1, z4, by omega, ?_⟩
    intro o hpc
    simp only [PhaseInv, hpc] at hph
    rcases hph with ⟨e1, a1, -⟩ | ⟨-, ⟨e1, a1, a2, -, a4⟩ | ⟨a1, -⟩⟩
    · rw [hc] at a1; exact absurd a1 (by simp)
    · rw [hp] at a1
      simp only [Option.some.injEq] at a1
      subst a1
      exact ⟨a2, a4⟩
    · rw [a1] at hp; exact absurd hp (by simp)
  obtain ⟨k1, k2, k3, k4, k5⟩ := key sched s hrun
  refine ⟨k1, k2, k3, k4, fun o ho => k5 o (result_some ho), ?_⟩
  obtain ⟨k, t, o, hk, hkt, hto⟩ := prepare_failure_progress hc hp (run_inv hrun).2
  obtain ⟨-, t2, t3, -, t5⟩ := key _ t (run_append hrun hkt)
  obtain ⟨ho, hcl⟩ := t5 o hto
  subst ho
  exact ⟨k, t, hk, hkt, by simp [State.result, hto], hcl, t2, t3⟩

/-- C3 at a concrete input: the schema creation fails. -/
theorem prepare_failure_aborts_witness :
    envCreateFail.connect = none ∧ (prepareAt cfgOne envCreateFail).1 = some createErr ∧
    Run cfgOne envCreateFail schedSetupFails = some stateCreateFailed ∧
    (stateCreateFailed.pc ≠ Pc.select ∧ acquired stateCreateFailed.trace = 0 ∧
     workloadCount stateCreateFailed.trace = 0 ∧ stateCreateFailed.inFlight = 0 ∧
     (∀ o, stateCreateFailed.result = some o →
       o = Outcome.ret (some createErr) ∧ closeCount stateCreateFailed.trace = 1) ∧
     (∃ k t, k ≤ 4 ∧
       runFrom cfgOne envCreateFail stateCreateFailed (List.replicate k Event.main) = some t ∧
       t.result = some (Outcome.ret (some createErr)) ∧ closeCount t.trace = 1 ∧
       acquired t.trace = 0 ∧ workloadCount t.trace = 0)) :=
  ⟨rfl, rfl, rfl,
    prepare_failure_aborts cfgOne envCreateFail schedSetupFails stateCreateFailed createErr
      rfl rfl rfl⟩

/-! ## C4: teardown after cancellation -/

@[simp] theorem mainEffects_nil : mainEffects [] = [] := rfl

@[simp] theorem mainEffects_append (a b : List Effect) :
    mainEffects (a ++ b) = mainEffects a ++ mainEffects b := by
  simp [mainEffects]

@[simp] theorem mainEffects_cons (x : Effect) (a : List Effect) :
    mainEffects (x :: a) = if x.isMain then x :: mainEffects a else mainEffects a := by
  simp only [mainEffects, List.filter_cons]

theorem afterLoop_step {cfg : Config} {env : Env} {tr0 : List Effect} {s t : State}
    {e : Event} (hs : AfterLoop tr0 s) (h : Step cfg env s e t) : AfterLoop tr0 t := by
  obtain ⟨ext, htr, hcase⟩ := hs
  have hpc : s.pc = Pc.exit (Outcome.ret none) ∨ s.pc = Pc.finished (Outcome.ret none) := by
    rcases hcase with ⟨a, -⟩ | ⟨a, -⟩ | ⟨a, -⟩ | ⟨a, -⟩
    · exact Or.inl a
    · exact Or.inl a
    · exact Or.inl a
    · exact Or.inr a
  cases h
  case cancel => exact ⟨ext, htr, hcase⟩
  case connectFail err hp hc => rcases hpc with a | a <;> (rw [hp] at a; exact absurd a (by simp))
  case connectOk hp hc => rcases hpc with a | a <;> (rw [hp] at a; exact absurd a (by simp))
  case prepareFail err tr hp hq =>
    rcases hpc with a | a <;> (rw [hp] at a; exact absurd a (by simp))
  case prepareOk tr hp hq => rcases hpc with a | a <;> (rw [hp] at a; exact absurd a (by simp))
  case intervalPanic hp hd => rcases hpc with a | a <;> (rw [hp] at a; exact absurd a (by simp))
  case intervalOk d hp hd => rcases hpc with a | a <;> (rw [hp] at a; exact absurd a (by simp))
  case sendHandoff hp hlen hrecv =>
    rcases hpc with a | a <;> (rw [hp] at a; exact absurd a (by simp))
  case sendBuffer hp hno hlen =>
    rcases hpc with a | a <;> (rw [hp] at a; exact absurd a (by simp))
  case done hp hc => rcases hpc with a | a <;> (rw [hp] at a; exact absurd a (by simp))
  case exitFinish o hp hds =>
    refine ⟨ext, htr, ?_⟩
    rcases hcase with ⟨a, b, c⟩ | ⟨a, b, c⟩ | ⟨a, b, c⟩ | ⟨a, c⟩
    · rw [hds] at b; exact absurd b (by simp)
    · rw [hds] at b; exact absurd b (by simp)
    · rw [hp] at a
      simp only [Pc.exit.injEq] at a
      subst a
      exact Or.inr (Or.inr (Or.inr ⟨rfl, c⟩))
    · rw [hp] at a; exact absurd a (by simp)
  case exitCleanup o ds hp hds =>
    refine ⟨ext ++ [Effect.exec Actor.main Stmt.queryDropTable []], by simp [htr], ?_⟩
    rcases hcase with ⟨a, b, c⟩ | ⟨a, b, c⟩ | ⟨a, b, c⟩ | ⟨a, c⟩
    · rw [hds] at b
      simp only [List.cons.injEq, true_and] at b
      exact Or.inr (Or.inl ⟨a, b, by simp [c, Effect.isMain]⟩)
    · rw [hds] at b; exact absurd b (by simp)
    · rw [hds] at b; exact absurd b (by simp)
    · rw [hp] at a; exact absurd a (by simp)
  case exitClose o ds hp hds =>
    refine ⟨ext ++ [Effect.close], by simp [htr], ?_⟩
    rcases hcase with ⟨a, b, c⟩ | ⟨a, b, c⟩ | ⟨a, b, c⟩ | ⟨a, c⟩
    · rw [hds] at b; exact absurd b (by simp)
    · rw [hds] at b
      simp only [List.cons.injEq, true_and] at b
      exact Or.inr (Or.inr (Or.inl ⟨a, b, by simp [c, Effect.isMain]⟩))
    · rw [hds] at b; exact absurd b (by simp)
    · rw [hp] at a; exact absurd a (by simp)
  case workerExec hrun =>
    exact ⟨ext ++ [Effect.exec Actor.worker Stmt.querySelectData []], by simp [htr],
      by simpa [Effect.isMain] using hcase⟩
  case workerWake hsl =>
    exact ⟨ext ++ [Effect.sleep s.interval], by simp [htr],
      by simpa [Effect.isMain] using hcase⟩
  case workerRecv hrel hlen =>
    exact ⟨ext ++ [Effect.release], by simp [htr], by simpa [Effect.isMain] using hcase⟩

/-- Leaving the loop: from a state in the `select` with the context cancelled, the case
`<-ctx.Done()` and three sequential steps end `Run` with nil. -/
theorem loop_exit_ends (cfg : Config) (env : Env) {s : State} (hsel : s.pc = Pc.select)
    (hcan : s.cancelled = true) (hds : s.defers = [Deferred.cleanup, Deferred.poolClose]) :
    ∃ t, runFrom cfg env s [Event.done, Event.main, Event.main, Event.main] = some t ∧
      t.result = some (Outcome.ret none) ∧ acquired t.trace = acquired s.trace ∧
      cleanupCount t.trace = cleanupCount s.trace + 1 := by
  simp [runFrom, step, stepDone, stepMain, hsel, hcan, hds, State.result]

/-- C4: from any reachable state in the loop with the context cancelled - whatever is in
flight - taking the case `<-ctx.Done()` and three more steps of `Run` ends it with nil;
and in every execution that leaves the loop there and ends, `Run` returns nil and its
own effects after the loop are exactly `cleanup` (DROP TABLE) and then `pool.Close`,
each once in the whole run. -/
theorem cancel_runs_cleanup_then_close (cfg : Config) (env : Env) (pre : List Event)
    (s : State) (hpre : Run cfg env pre = some s) (hsel : s.pc = Pc.select)
    (hcan : s.cancelled = true) :
    (∃ t, runFrom cfg env s [Event.done, Event.main, Event.main, Event.main] = some t ∧
      t.result = some (Outcome.ret none)) ∧
    (∀ post t o, runFrom cfg env s (Event.done :: post) = some t → t.result = some o →
      o = Outcome.ret none ∧ cleanupCount t.trace = 1 ∧ closeCount t.trace = 1 ∧
      ∃ ext, t.trace = s.trace ++ ext ∧
        mainEffects ext = [Effect.exec Actor.main Stmt.queryDropTable [], Effect.close]) := by
  have hph := (run_inv hpre).2
  simp only [PhaseInv, hsel] at hph
  obtain ⟨c1, c2, c3, c4, c5, c6⟩ := hph
  constructor
  · obtain ⟨t, h1, h2, -⟩ := loop_exit_ends cfg env hsel hcan c4
    exact ⟨t, h1, h2⟩
  · intro post t o hrun hres
    have hpc := result_some hres
    have hend := (run_inv (run_append hpre hrun)).2
    simp only [PhaseInv, hpc] at hend
    simp only [runFrom] at hrun
    rcases hst : step cfg env s Event.done with _ | s1
    · rw [hst] at hrun; exact absurd hrun (by simp)
    · rw [hst] at hrun
      simp only [step, stepDone, hsel, hcan, if_true, Option.some.injEq] at hst
      have h0 : AfterLoop s.trace s1 := by
        subst hst
        exact ⟨[], by simp, Or.inl ⟨rfl, c4, rfl⟩⟩
      have hfin := runFrom_preserves (AfterLoop s.trace)
        (fun _ _ _ hs hstep => afterLoop_step hs hstep) post s1 t h0 hrun
      obtain ⟨ext, hext, hcase⟩ := hfin
      have hmain : o = Outcome.ret none ∧
          mainEffects ext = [Effect.exec Actor.main Stmt.queryDropTable [], Effect.close] := by
        rcases hcase with ⟨a, -⟩ | ⟨a, -⟩ | ⟨a, -⟩ | ⟨a, c⟩
        · rw [hpc] at a; exact absurd a (by simp)
        · rw [hpc] at a; exact absurd a (by simp)
        · rw [hpc] at a; exact absurd a (by simp)
        · rw [hpc] at a
          simp only [Pc.finished.injEq] at a
          exact ⟨a, c⟩
      rcases hend with ⟨e1, a1, -⟩ | ⟨-, ⟨e1, a1, -⟩ | ⟨-, -, a3, a4⟩⟩
      · rw [c1] at a1; exact absurd a1 (by simp)
      · rw [c2] at a1; exact absurd a1 (by simp)
      · exact ⟨hmain.1, a3, a4, ext, hext, hmain.2⟩

/-- C4 at a concrete input: cancellation with one operation in flight. -/
theorem cancel_runs_cleanup_then_close_witness :
    Run cfgOne envOk schedCancelledBusy = some stateCancelledBusy ∧
    stateCancelledBusy.pc = Pc.select ∧ stateCancelledBusy.cancelled = true ∧
    stateCancelledBusy.inFlight = 1 ∧
    ((∃ t, runFrom cfgOne envOk stateCancelledBusy
        [Event.done, Event.main, Event.main, Event.main] = some t ∧
      t.result = some (Outcome.ret none)) ∧
    (∀ post t o, runFrom cfgOne envOk stateCancelledBusy (Event.done :: post) = some t →
      t.result = some o →
      o = Outcome.ret none ∧ cleanupCount t.trace = 1 ∧ closeCount t.trace = 1 ∧
      ∃ ext, t.trace = stateCancelledBusy.trace ++ ext ∧
        mainEffects ext = [Effect.exec Actor.main Stmt.queryDropTable [], Effect.close])) :=
  ⟨rfl, rfl, rfl, rfl,
    cancel_runs_cleanup_then_close cfgOne envOk schedCancelledBusy stateCancelledBusy
      rfl rfl rfl⟩

/-! ## C5: when `cleanup` runs -/

/-- C5, the claim fails: connecting and the schema creation succeed, the seed fails, and
`Run` returns the error of the seed having closed the pool and never called `cleanup`. -/
theorem cleanup_skipped_when_seed_fails :
    envSeedFail.connect = none ∧
    Run cfgOne envSeedFail schedSetupFails = some stateSeedFailed ∧
    stateSeedFailed.result = some (Outcome.ret (some seedErr)) ∧
    Effect.exec Actor.main Stmt.queryCreateTable [] ∈ stateSeedFailed.trace ∧
    closeCount stateSeedFailed.trace = 1 ∧
    cleanupCount stateSeedFailed.trace = 0 :=
  ⟨rfl, rfl, rfl, by decide, rfl, rfl⟩

/-- C5 as amended: in every execution of `Run` in which connecting and `prepare` succeed,
`cleanup` is called at most once at any time and exactly once by the time `Run` ends (by
`return nil` or by the panic of a zero rate), whatever the workload queries return; and
some schedule does make such a run end. -/
theorem cleanup_once_when_prepared (cfg : Config) (env : Env) (sched : List Event)
    (s : State) (hc : env.connect = none) (hp : (prepareAt cfg env).1 = none)
    (hrun : Run cfg env sched = some s) :
    cleanupCount s.trace ≤ 1 ∧
    (∀ o, s.result = some o → cleanupCount s.trace = 1) ∧
    (∃ sched1 s1 o1, Run cfg env sched1 = some s1 ∧ s1.result = some o1) := by
  have hph := (run_inv hrun).2
  refine ⟨?_, ?_, run_can_end cfg env⟩
  · cases hpc : s.pc with
    | connect => simp only [PhaseInv, hpc] at hph; simp [hph.1]
    | prepare => simp only [PhaseInv, hpc] at hph; simp [hph.2.1]
    | interval => simp only [PhaseInv, hpc] at hph; omega
    | select => simp only [PhaseInv, hpc] at hph; omega
    | exit o =>
      simp only [PhaseInv, hpc] at hph
      rcases hph.2 with ⟨e1, -, -, a3, -⟩ | ⟨-, -, ⟨-, b, -⟩ | ⟨-, b, -⟩ | ⟨-, b, -⟩⟩ <;> omega
    | finished o =>
      simp only [PhaseInv, hpc] at hph
      rcases hph with ⟨e1, -, -, a3, -⟩ | ⟨-, ⟨e1, -, -, a3, -⟩ | ⟨-, -, a3, -⟩⟩ <;> omega
  · intro o ho
    have hpc := result_some ho
    simp only [PhaseInv, hpc] at hph
    rcases hph with ⟨e1, a1, -⟩ | ⟨-, ⟨e1, a1, -⟩ | ⟨-, -, a3, -⟩⟩
    · rw [hc] at a1; exact absurd a1 (by simp)
    · rw [hp] at a1; exact absurd a1 (by simp)
    · exact a3

/-- C5 as amended at a concrete input: a run that is cancelled after the setup. -/
theorem cleanup_once_when_prepared_witness :
    envOk.connect = none ∧ (prepareAt cfgOne envOk).1 = none ∧
    Run cfgOne envOk schedCancelled = some stateCancelledIdle ∧
    (cleanupCount stateCancelledIdle.trace ≤ 1 ∧
     (∀ o, stateCancelledIdle.result = some o → cleanupCount stateCancelledIdle.trace = 1) ∧
     (∃ sched1 s1 o1, Run cfgOne envOk sched1 = some s1 ∧ s1.result = some o1)) :=
  ⟨rfl, rfl, rfl,
    cleanup_once_when_prepared cfgOne envOk schedCancelled stateCancelledIdle rfl rfl rfl⟩

/-! ## C6: the rate limiter -/

/-- Once the loop is reached, the stored interval is the computed one. -/
theorem entered_interval {cfg : Config} {env : Env} {s : State} (hent : s.entered)
    (hph : PhaseInv cfg env s) : calcInterval cfg = some s.interval := by
  rcases hent with hpc | hpc | hpc
  · simp only [PhaseInv, hpc] at hph
    exact hph.2.2.1
  · simp only [PhaseInv, hpc] at hph
    rcases hph.2 with ⟨e1, -, a2, -⟩ | ⟨-, ⟨-, b2⟩ | ⟨b1, -⟩, -⟩
    · exact absurd a2 (by simp)
    · exact absurd b2 (by simp)
    · exact b1
  · simp only [PhaseInv, hpc] at hph
    rcases hph with ⟨e1, -, a2, -⟩ | ⟨-, ⟨e1, -, a2, -⟩ | ⟨-, ⟨-, b2⟩ | ⟨b1, -⟩, -⟩⟩
    · exact absurd a2 (by simp)
    · exact absurd a2 (by simp)
    · exact absurd b2 (by simp)
    · exact b1

theorem sleepInv_step {cfg : Config} {env : Env} {s t : State} {e : Event}
    (hg : GateInv cfg s) (hph : PhaseInv cfg env s) (hs : SleepInv cfg s)
    (h : Step cfg env s e t) : SleepInv cfg t := by
  intro d hd
  cases h
  case cancel => exact hs d hd
  case connectFail err hpc hc => exact hs d (by simpa using hd)
  case connectOk hpc hc => exact hs d (by simpa using hd)
  case prepareFail err tr hpc hp =>
    have h2 : tr = (prepare cfg env s.trace).2 := by rw [hp]
    simp only at hd
    rcases prepare_snd cfg env s.trace with h3 | h3 <;>
      (rw [h3] at h2; subst h2; exact hs d (by simpa using hd))
  case prepareOk tr hpc hp =>
    have h2 : tr = (prepare cfg env s.trace).2 := by rw [hp]
    simp only at hd
    rcases prepare_snd cfg env s.trace with h3 | h3 <;>
      (rw [h3] at h2; subst h2; exact hs d (by simpa using hd))
  case intervalPanic hpc hc => exact hs d hd
  case intervalOk d1 hpc hc => exact hs d hd
  case exitFinish o hpc hds => exact hs d hd
  case exitCleanup o ds hpc hds => exact hs d (by simpa using hd)
  case exitClose o ds hpc hds => exact hs d (by simpa using hd)
  case sendHandoff hpc hlen hrecv => exact hs d (by simpa using hd)
  case sendBuffer hpc hno hlen => exact hs d (by simpa using hd)
  case done hpc hc => exact hs d hd
  case workerExec hrun => exact hs d (by simpa using hd)
  case workerRecv hrel hlen => exact hs d (by simpa using hd)
  case workerWake hsl =>
    simp only [List.mem_append, List.mem_singleton, Effect.sleep.injEq] at hd
    rcases hd with hd | hd
    · exact hs d hd
    · have hent : s.entered := by
        by_contra hne
        have hz := hg.2.2.2 hne
        have h1 := hg.1
        simp only [State.inFlight] at h1
        omega
      rw [hd]
      exact entered_interval hent hph

/-- In every reachable state the sleeps recorded so far last the computed interval. -/
theorem run_sleepInv {cfg : Config} {env : Env} {sched : List Event} {s : State}
    (h : Run cfg env sched = some s) : SleepInv cfg s :=
  (runFrom_preserves (fun s => (GateInv cfg s ∧ PhaseInv cfg env s) ∧ SleepInv cfg s)
    (fun _ _ _ hs hst =>
      ⟨⟨gateInv_step hs.1.1 hst, phaseInv_step hs.1.1 hs.1.2 hst⟩,
        sleepInv_step hs.1.1 hs.1.2 hs.2 hst⟩)
    sched init s
    ⟨⟨gateInv_init cfg, phaseInv_init cfg env⟩, fun d hd => by simp [init] at hd⟩ h).2

/-- C6: for a rate R above zero the interval `Run` computes is D = 1000000000 / R in
truncating integer arithmetic (nanoseconds), so R * D is at most 1000000000 and
R * (D + 1) is more, and D is at least 1 when R is at most 1000000000; this D is the
interval the loop of `Run` holds and the duration of every sleep of a worker. -/
theorem interval_is_second_over_rate (cfg : Config) (hrate : 0 < cfg.TempFilesRate) :
    ∃ D, calcInterval cfg = some D ∧
      D = Int.tdiv 1000000000 cfg.TempFilesRate ∧
      D = 1000000000 / cfg.TempFilesRate ∧
      cfg.TempFilesRate * D ≤ 1000000000 ∧
      1000000000 < cfg.TempFilesRate * (D + 1) ∧
      (cfg.TempFilesRate ≤ 1000000000 → 1 ≤ D) ∧
      (∀ env sched s, Run cfg env sched = some s →
        (s.pc = Pc.select → s.interval = D) ∧ (∀ d, Effect.sleep d ∈ s.trace → d = D)) := by
  have hne : cfg.TempFilesRate ≠ 0 := Int.ne_of_gt hrate
  have hcalc := calcInterval_eq_some hne
  have hdiv : Int.tdiv 1000000000 cfg.TempFilesRate = 1000000000 / cfg.TempFilesRate :=
    Int.tdiv_eq_ediv (by decide) (Int.le_of_lt hrate)
  refine ⟨Int.tdiv 1000000000 cfg.TempFilesRate, hcalc, rfl, hdiv, ?_, ?_, ?_, ?_⟩
  · rw [hdiv]
    exact Int.mul_ediv_self_le hne
  · rw [hdiv]
    have := Int.lt_mul_ediv_self_add (x := 1000000000) hrate
    linarith
  · intro hle
    rw [hdiv]
    exact Int.le_ediv_of_mul_le hrate (by linarith)
  · intro env sched s hrun
    constructor
    · intro hpc
      have h1 := entered_interval (Or.inl hpc) (run_inv hrun).2
      rw [hcalc] at h1
      simp only [Option.some.injEq] at h1
      exact h1.symm
    · intro d hd
      have h1 := run_sleepInv hrun d hd
      rw [hcalc] at h1
      simp only [Option.some.injEq] at h1
      exact h1.symm

/-- C6 at a concrete input: 100 queries per second give 10000000 nanoseconds. -/
theorem interval_is_second_over_rate_witness :
    0 < cfgOne.TempFilesRate ∧ calcInterval cfgOne = some 10000000 ∧
    ∃ D, calcInterval cfgOne = some D ∧
      D = Int.tdiv 1000000000 cfgOne.TempFilesRate ∧
      D = 1000000000 / cfgOne.TempFilesRate ∧
      cfgOne.TempFilesRate * D ≤ 1000000000 ∧
      1000000000 < cfgOne.TempFilesRate * (D + 1) ∧
      (cfgOne.TempFilesRate ≤ 1000000000 → 1 ≤ D) ∧
      (∀ env sched s, Run cfgOne env sched = some s →
        (s.pc = Pc.select → s.interval = D) ∧ (∀ d, Effect.sleep d ∈ s.trace → d = D)) :=
  ⟨by decide, rfl, interval_is_second_over_rate cfgOne (by decide)⟩

/-! ## C7: a rate of zero -/

/-- C7, the code at `TempFilesRate = 0`: the division has a zero divisor, and with a
setup that succeeds `Run` ends in the panic of that division after its deferred calls;
every execution that ends after a successful setup ends so. -/
theorem rate_zero_panics :
    calcInterval cfgRateZero = none ∧
    Run cfgRateZero envOk schedPanic = some stateRateZero ∧
    stateRateZero.result = some Outcome.panic ∧
    (∀ env sched s o, env.connect = none → (prepareAt cfgRateZero env).1 = none →
      Run cfgRateZero env sched = some s → s.result = some o → o = Outcome.panic) := by
  refine ⟨rfl, rfl, rfl, ?_⟩
  intro env sched s o hc hp hrun hres
  have hph := (run_inv hrun).2
  simp only [PhaseInv, result_some hres] at hph
  rcases hph with ⟨e1, a1, -⟩ | ⟨-, ⟨e1, a1, -⟩ | ⟨-, ⟨-, b2⟩ | ⟨b1, -⟩, -⟩⟩
  · rw [hc] at a1; exact absurd a1 (by simp)
  · rw [hp] at a1; exact absurd a1 (by simp)
  · exact b2
  · exact absurd b1 (by simp [calcInterval, goDiv, cfgRateZero])

/-! ## C8: cancellation before any operation starts -/

/-- C8, the claim fails: the loop starts with the cancellation raised and a free slot,
the `select` takes the send, an operation is admitted, and only then `Run` returns
nil. -/
theorem cancelled_loop_may_send :
    Run cfgOne envOk schedCancelFirst = some stateCancelledAtLoop ∧
    stateCancelledAtLoop.pc = Pc.select ∧ stateCancelledAtLoop.cancelled = true ∧
    acquired stateCancelledAtLoop.trace = 0 ∧
    stateCancelledAtLoop.guardLen < cfgOne.Jobs ∧
    runFrom cfgOne envOk stateCancelledAtLoop schedSendThenDone = some stateSentAfterCancel ∧
    stateSentAfterCancel.result = some (Outcome.ret none) ∧
    acquired stateSentAfterCancel.trace = 1 :=
  ⟨rfl, rfl, rfl, rfl, by decide, rfl, rfl, rfl⟩

theorem cancelled_step {cfg : Config} {env : Env} {s t : State} {e : Event}
    (hs : s.cancelled = true) (h : Step cfg env s e t) : t.cancelled = true := by
  cases h <;> first | exact hs | rfl

theorem acquired_step {cfg : Config} {env : Env} {s t : State} {e : Event}
    (h : Step cfg env s e t) :
    acquired t.trace = acquired s.trace + (if e = Event.send then 1 else 0) := by
  cases h
  case prepareFail err tr hpc hp => simpa using (prepare_counts hp).1
  case prepareOk tr hpc hp => simpa using (prepare_counts hp).1
  all_goals simp

theorem acquired_runFrom {cfg : Config} {env : Env} (sched : List Event) :
    ∀ (s t : State), runFrom cfg env s sched = some t →
      acquired t.trace = acquired s.trace + sched.count Event.send := by
  induction sched with
  | nil =>
    intro s t h
    simp only [runFrom, Option.some.injEq] at h
    simp [h]
  | cons e es ih =>
    intro s t h
    simp only [runFrom] at h
    rcases hst : step cfg env s e with _ | s1
    · rw [hst] at h; exact absurd h (by simp)
    · rw [hst] at h
      rw [ih s1 t h, acquired_step (step_sound hst), List.count_cons]
      by_cases he : e = Event.send
      · subst he; simp; omega
      · have he2 : ¬ (Event.send = e) := fun h => he h.symm
        simp [he, he2]

/-- C8 as amended: when the loop starts with the cancellation raised, the execution whose
`select` takes `<-ctx.Done()` at once admits no operation and returns nil; in every
state reached from there the context stays cancelled and, while `Run` is in the
`select`, that case is ready; the operations admitted are exactly the times the `select`
took the send instead; and every execution that ends returns nil. -/
theorem cancelled_loop_can_stop (cfg : Config) (env : Env) (pre : List Event) (s : State)
    (hpre : Run cfg env pre = some s) (hsel : s.pc = Pc.select)
    (hcan : s.cancelled = true) (hzero : acquired s.trace = 0) :
    (∃ t, runFrom cfg env s [Event.done, Event.main, Event.main, Event.main] = some t ∧
      t.result = some (Outcome.ret none) ∧ acquired t.trace = 0) ∧
    (∀ post t, runFrom cfg env s post = some t →
      t.cancelled = true ∧
      (t.pc = Pc.select → ∃ u, step cfg env t Event.done = some u ∧
        u.pc = Pc.exit (Outcome.ret none)) ∧
      acquired t.trace = post.count Event.send ∧
      (∀ o, t.result = some o → o = Outcome.ret none)) := by
  have hph := (run_inv hpre).2
  simp only [PhaseInv, hsel] at hph
  obtain ⟨c1, c2, c3, c4, -, -⟩ := hph
  constructor
  · obtain ⟨t, h1, h2, h3, -⟩ := loop_exit_ends cfg env hsel hcan c4
    exact ⟨t, h1, h2, by omega⟩
  · intro post t hrun
    have hct : t.cancelled = true :=
      runFrom_preserves (fun s => s.cancelled = true)
        (fun _ _ _ hs hst => cancelled_step hs hst) post s t hcan hrun
    refine ⟨hct, ?_, ?_, ?_⟩
    · intro hpc
      exact ⟨{ t with pc := Pc.exit (Outcome.ret none) },
        by simp [step, stepDone, hpc, hct], rfl⟩
    · rw [acquired_runFrom post s t hrun, hzero, Nat.zero_add]
    · intro o hres
      have hend := (run_inv (run_append hpre hrun)).2
      simp only [PhaseInv, result_some hres] at hend
      rcases hend with ⟨e1, a1, -⟩ | ⟨-, ⟨e1, a1, -⟩ | ⟨-, ⟨b1, -⟩ | ⟨-, b2⟩, -⟩⟩
      · rw [c1] at a1; exact absurd a1 (by simp)
      · rw [c2] at a1; exact absurd a1 (by simp)
      · rw [c3] at b1; exact absurd b1 (by simp)
      · exact b2

/-- C8 as amended at a concrete input: one job, the context cancelled before the call. -/
theorem cancelled_loop_can_stop_witness :
    Run cfgOne envOk schedCancelFirst = some stateCancelledAtLoop ∧
    stateCancelledAtLoop.pc = Pc.select ∧ stateCancelledAtLoop.cancelled = true ∧
    acquired stateCancelledAtLoop.trace = 0 ∧
    ((∃ t, runFrom cfgOne envOk stateCancelledAtLoop
        [Event.done, Event.main, Event.main, Event.main] = some t ∧
      t.result = some (Outcome.ret none) ∧ acquired t.trace = 0) ∧
    (∀ post t, runFrom cfgOne envOk stateCancelledAtLoop post = some t →
      t.cancelled = true ∧
      (t.pc = Pc.select → ∃ u, step cfgOne envOk t Event.done = some u ∧
        u.pc = Pc.exit (Outcome.ret none)) ∧
      acquired t.trace = post.count Event.send ∧
      (∀ o, t.result = some o → o = Outcome.ret none))) :=
  ⟨rfl, rfl, rfl, rfl,
    cancelled_loop_can_stop cfgOne envOk schedCancelFirst stateCancelledAtLoop
      rfl rfl rfl rfl⟩

/-! ## C9: `prepare` -/

theorem wrapInt64_of_fits {x : Int} (h1 : -2 ^ 63 ≤ x) (h2 : x < 2 ^ 63) :
    wrapInt64 x = x := by
  unfold wrapInt64
  omega

/-- C9: `prepare` executes the schema creation and then the seed, whose one parameter
is the Go product `1000 * TempFilesScaleFactor` (the exact product whenever that fits an
`int`), each at most once; if the schema creation fails the seed is not executed and
that error is returned; if the seed fails its error is returned; `prepare` returns nil
exactly when both succeed; and it never executes the DROP TABLE of `cleanup`. -/
theorem prepare_fails_fast (cfg : Config) (env : Env) (tr : List Effect) :
    (∀ err, env.exec (execCount tr) Stmt.queryCreateTable [] = some err →
      prepare cfg env tr =
        (some err, tr ++ [Effect.exec Actor.main Stmt.queryCreateTable []])) ∧
    (env.exec (execCount tr) Stmt.queryCreateTable [] = none →
      (∀ err, env.exec (execCount tr + 1) Stmt.queryLoadData
          [goMul 1000 cfg.TempFilesScaleFactor] = some err →
        prepare cfg env tr =
          (some err, tr ++ [Effect.exec Actor.main Stmt.queryCreateTable [],
            Effect.exec Actor.main Stmt.queryLoadData
              [goMul 1000 cfg.TempFilesScaleFactor]])) ∧
      (env.exec (execCount tr + 1) Stmt.queryLoadData
          [goMul 1000 cfg.TempFilesScaleFactor] = none →
        prepare cfg env tr =
          (none, tr ++ [Effect.exec Actor.main Stmt.queryCreateTable [],
            Effect.exec Actor.main Stmt.queryLoadData
              [goMul 1000 cfg.TempFilesScaleFactor]]))) ∧
    ((prepare cfg env tr).1 = none ↔
      (env.exec (execCount tr) Stmt.queryCreateTable [] = none ∧
       env.exec (execCount tr + 1) Stmt.queryLoadData
          [goMul 1000 cfg.TempFilesScaleFactor] = none)) ∧
    cleanupCount (prepare cfg env tr).2 = cleanupCount tr ∧
    (-2 ^ 63 ≤ 1000 * cfg.TempFilesScaleFactor → 1000 * cfg.TempFilesScaleFactor < 2 ^ 63 →
      goMul 1000 cfg.TempFilesScaleFactor = 1000 * cfg.TempFilesScaleFactor) := by
  have heq := prepare_eq cfg env tr
  refine ⟨?_, ?_, ?_, ?_, fun h1 h2 => wrapInt64_of_fits h1 h2⟩
  · intro err h
    rw [heq, h]
  · intro h
    constructor
    · intro err h2
      rw [heq, h, h2]
    · intro h2
      rw [heq, h, h2]
  · rw [heq]
    rcases h1 : env.exec (execCount tr) Stmt.queryCreateTable [] with _ | e1
    · rcases h2 : env.exec (execCount tr + 1) Stmt.queryLoadData
          [goMul 1000 cfg.TempFilesScaleFactor] with _ | e2 <;> simp
    · simp
  · rcases prepare_snd cfg env tr with h | h <;> (rw [h]; simp)

/-- C9 at concrete inputs: the schema creation fails; the seed fails; both succeed; the
scale factor 2 gives the parameter 2000. -/
theorem prepare_fails_fast_witness :
    prepare cfgOne envCreateFail traceOneExec =
      (some createErr,
        traceOneExec ++ [Effect.exec Actor.main Stmt.queryCreateTable []]) ∧
    prepare cfgOne envSeedFail traceOneExec =
      (some seedErr, traceOneExec ++ [Effect.exec Actor.main Stmt.queryCreateTable [],
        Effect.exec Actor.main Stmt.queryLoadData [goMul 1000 cfgOne.TempFilesScaleFactor]]) ∧
    prepare cfgOne envOk traceOneExec =
      (none, traceOneExec ++ [Effect.exec Actor.main Stmt.queryCreateTable [],
        Effect.exec Actor.main Stmt.queryLoadData [goMul 1000 cfgOne.TempFilesScaleFactor]]) ∧
    goMul 1000 cfgOne.TempFilesScaleFactor = 2000 :=
  ⟨(prepare_fails_fast cfgOne envCreateFail traceOneExec).1 createErr rfl,
    ((prepare_fails_fast cfgOne envSeedFail traceOneExec).2.1 rfl).1 seedErr rfl,
    ((prepare_fails_fast cfgOne envOk traceOneExec).2.1 rfl).2 rfl,
    (prepare_fails_fast cfgOne envOk traceOneExec).2.2.2.2 (by decide) (by decide)⟩

/-! ## C10: `Jobs = 0` -/

theorem idleInv_step {cfg : Config} {env : Env} {s t : State} {e : Event}
    (hj : cfg.Jobs = 0) (hs : IdleInv s) (h : Step cfg env s e t) : IdleInv t := by
  obtain ⟨h1, h2, h3, h4, h5⟩ := hs
  simp only [State.inFlight] at h4
  cases h
  case cancel => exact ⟨h1, h2, h3, h4, h5⟩
  case prepareFail err tr hpc hp =>
    obtain ⟨p1, p2, p3, -, -⟩ := prepare_counts hp
    exact ⟨by simp only; omega, by simp only; omega, by simp only; omega, h4, h5⟩
  case prepareOk tr hpc hp =>
    obtain ⟨p1, p2, p3, -, -⟩ := prepare_counts hp
    exact ⟨by simp only; omega, by simp only; omega, by simp only; omega, h4, h5⟩
  case sendHandoff hpc hlen hrecv => omega
  case sendBuffer hpc hno hlen => omega
  case workerExec hrun => omega
  case workerWake hsl => omega
  case workerRecv hrel hlen => omega
  all_goals
    simp only [IdleInv, State.inFlight]
    refine ⟨?_, ?_, ?_, ?_, ?_⟩ <;> first | omega | (simp; done) | (simp; omega)

theorem run_idleInv {cfg : Config} {env : Env} {sched : List Event} {s : State}
    (hj : cfg.Jobs = 0) (h : Run cfg env sched = some s) : IdleInv s :=
  runFrom_preserves IdleInv (fun _ _ _ hs hst => idleInv_step hj hs hst) sched init s
    (by simp [IdleInv, init, State.inFlight]) h

/-- C10: with `Jobs = 0`, in every reachable state the send case of the `select` is not
ready, nothing was admitted, no workload query was executed and nothing is in flight;
while the context is not cancelled the only event enabled in the loop is the
cancellation, and the loop is left only by the case `<-ctx.Done()`; once cancelled,
`Run` goes to its end, and every execution from the loop that ends returns nil having
called `cleanup` once. -/
theorem jobs_zero_never_dispatches (cfg : Config) (env : Env) (sched : List Event)
    (s : State) (hj : cfg.Jobs = 0) (hrun : Run cfg env sched = some s) :
    step cfg env s Event.send = none ∧
    acquired s.trace = 0 ∧ workloadCount s.trace = 0 ∧ s.inFlight = 0 ∧
    (s.pc = Pc.select → ∀ e t, step cfg env s e = some t →
      (s.cancelled = false → e = Event.cancel) ∧
      (t.pc ≠ Pc.select → e = Event.done ∧ s.cancelled = true)) ∧
    (s.pc = Pc.select → s.cancelled = true →
      ∃ t, runFrom cfg env s [Event.done, Event.main, Event.main, Event.main] = some t ∧
        t.result = some (Outcome.ret none) ∧ cleanupCount t.trace = 1 ∧
        acquired t.trace = 0) ∧
    (s.pc = Pc.select → ∀ post t o, runFrom cfg env s post = some t → t.result = some o →
      o = Outcome.ret none ∧ cleanupCount t.trace = 1 ∧ acquired t.trace = 0 ∧
      workloadCount t.trace = 0) := by
  obtain ⟨i1, i2, i3, i4, i5⟩ := run_idleInv hj hrun
  have hph := (run_inv hrun).2
  have hsend : step cfg env s Event.send = none := by
    rcases hst : step cfg env s Event.send with _ | t
    · rfl
    · exfalso
      simp only [State.inFlight] at i4
      cases step_sound hst
      case sendHandoff hpc hlen hrecv => omega
      case sendBuffer hpc hno hlen => omega
  refine ⟨hsend, i1, i3, i4, ?_, ?_, ?_⟩
  · intro hpc e t hst
    simp only [State.inFlight] at i4
    cases step_sound hst
    case cancel => exact ⟨fun _ => rfl, fun hne => absurd hpc hne⟩
    case connectFail err hp hc => rw [hp] at hpc; exact absurd hpc (by simp)
    case connectOk hp hc => rw [hp] at hpc; exact absurd hpc (by simp)
    case prepareFail err tr hp hq => rw [hp] at hpc; exact absurd hpc (by simp)
    case prepareOk tr hp hq => rw [hp] at hpc; exact absurd hpc (by simp)
    case intervalPanic hp hd => rw [hp] at hpc; exact absurd hpc (by simp)
    case intervalOk d hp hd => rw [hp] at hpc; exact absurd hpc (by simp)
    case exitFinish o hp hds => rw [hp] at hpc; exact absurd hpc (by simp)
    case exitCleanup o ds hp hds => rw [hp] at hpc; exact absurd hpc (by simp)
    case exitClose o ds hp hds => rw [hp] at hpc; exact absurd hpc (by simp)
    case sendHandoff hp hlen hrecv => omega
    case sendBuffer hp hno hlen => omega
    case done hp hc => exact ⟨fun hf => by rw [hc] at hf; exact absurd hf (by simp),
      fun _ => ⟨rfl, hc⟩⟩
    case workerExec hr => omega
    case workerWake hr => omega
    case workerRecv hr hl => omega
  · intro hpc hcan
    simp only [PhaseInv, hpc] at hph
    obtain ⟨t, h1, h2, h3, h4⟩ := loop_exit_ends cfg env hpc hcan hph.2.2.2.1
    exact ⟨t, h1, h2, by omega, by omega⟩
  · intro hpc post t o hpost hres
    simp only [PhaseInv, hpc] at hph
    obtain ⟨c1, c2, c3, -⟩ := hph
    have hall := run_append hrun hpost
    obtain ⟨j1, -, j3, -⟩ := run_idleInv hj hall
    have hend := (run_inv hall).2
    simp only [PhaseInv, result_some hres] at hend
    rcases hend with ⟨e1, a1, -⟩ | ⟨-, ⟨e1, a1, -⟩ | ⟨-, ⟨b1, -⟩ | ⟨-, b2⟩, a3, -⟩⟩
    · rw [c1] at a1; exact absurd a1 (by simp)
    · rw [c2] at a1; exact absurd a1 (by simp)
    · rw [c3] at b1; exact absurd b1 (by simp)
    · exact ⟨b2, a3, j1, j3⟩

/-- C10 at a concrete input: `Jobs = 0`, the setup done, the loop waiting. -/
theorem jobs_zero_never_dispatches_witness :
    cfgJobsZero.Jobs = 0 ∧ Run cfgJobsZero envOk schedSetup = some stateIdleLoop ∧
    (step cfgJobsZero envOk stateIdleLoop Event.send = none ∧
    acquired stateIdleLoop.trace = 0 ∧ workloadCount stateIdleLoop.trace = 0 ∧
    stateIdleLoop.inFlight = 0 ∧
    (stateIdleLoop.pc = Pc.select → ∀ e t, step cfgJobsZero envOk stateIdleLoop e = some t →
      (stateIdleLoop.cancelled = false → e = Event.cancel) ∧
      (t.pc ≠ Pc.select → e = Event.done ∧ stateIdleLoop.cancelled = true)) ∧
    (stateIdleLoop.pc = Pc.select → stateIdleLoop.cancelled = true →
      ∃ t, runFrom cfgJobsZero envOk stateIdleLoop
          [Event.done, Event.main, Event.main, Event.main] = some t ∧
        t.result = some (Outcome.ret none) ∧ cleanupCount t.trace = 1 ∧
        acquired t.trace = 0) ∧
    (stateIdleLoop.pc = Pc.select → ∀ post t o,
      runFrom cfgJobsZero envOk stateIdleLoop post = some t → t.result = some o →
      o = Outcome.ret none ∧ cleanupCount t.trace = 1 ∧ acquired t.trace = 0 ∧
      workloadCount t.trace = 0)) :=
  ⟨rfl, rfl, jobs_zero_never_dispatches cfgJobsZero envOk schedSetup stateIdleLoop rfl rfl⟩

/-! ## C1: only setup errors cross the boundary of `Run` -/

theorem cancelInv_step {cfg : Config} {env : Env} {s t : State} {e : Event}
    (hs : CancelInv s) (h : Step cfg env s e t) : CancelInv t := by
  intro ht
  cases h
  case cancel => rfl
  case connectFail err hpc hc => simp at ht
  case connectOk hpc hc => simp at ht
  case prepareFail err tr hpc hp => simp at ht
  case prepareOk tr hpc hp => simp at ht
  case intervalPanic hpc hd => simp at ht
  case intervalOk d hpc hd => simp at ht
  case exitFinish o hpc hds =>
    simp only [Pc.finished.injEq, false_or, reduceCtorEq] at ht
    subst ht
    exact hs (Or.inl hpc)
  case exitCleanup o ds hpc hds => exact hs ht
  case exitClose o ds hpc hds => exact hs ht
  case sendHandoff hpc hlen hrecv => exact hs ht
  case sendBuffer hpc hno hlen => exact hs ht
  case done hpc hc => exact hc
  case workerExec hrun => exact hs ht
  case workerWake hsl => exact hs ht
  case workerRecv hrel hlen => exact hs ht

theorem run_cancelInv {cfg : Config} {env : Env} {sched : List Event} {s : State}
    (h : Run cfg env sched = some s) : CancelInv s :=
  runFrom_preserves CancelInv (fun _ _ _ hs hst => cancelInv_step hs hst) sched init s
    (by simp [CancelInv, init]) h

/-- With a rate other than zero, every state of a run has a continuation that ends
`Run`: the remaining sequential steps and, where the loop is still to be left, the
cancellation and the case `<-ctx.Done()`. -/
theorem run_progress {cfg : Config} {env : Env} {s : State}
    (hrate : cfg.TempFilesRate ≠ 0) (hinv : PhaseInv cfg env s) :
    ∃ more t o, runFrom cfg env s more = some t ∧ t.pc = Pc.finished o := by
  have hd := calcInterval_eq_some hrate
  cases hpc : s.pc with
  | connect =>
    simp only [PhaseInv, hpc] at hinv
    rcases hc : env.connect with _ | cerr
    · rcases hpp : prepare cfg env [Effect.connect cfg.PostgresConninfo] with ⟨r, tr⟩
      rcases r with _ | perr
      · refine ⟨[Event.main, Event.main, Event.main, Event.cancel, Event.done, Event.main,
          Event.main, Event.main], ?_⟩
        simp [runFrom, step, stepMain, stepDone, hpc, hc, hinv.1, hinv.2, hpp, hd]
      · refine ⟨[Event.main, Event.main, Event.main, Event.main], ?_⟩
        simp [runFrom, step, stepMain, hpc, hc, hinv.1, hinv.2, hpp]
    · refine ⟨[Event.main], ?_⟩
      simp [runFrom, step, stepMain, hpc, hc]
  | prepare =>
    simp only [PhaseInv, hpc] at hinv
    rcases hpp : prepare cfg env [Effect.connect cfg.PostgresConninfo] with ⟨r, tr⟩
    rcases r with _ | perr
    · refine ⟨[Event.main, Event.main, Event.cancel, Event.done, Event.main, Event.main,
        Event.main], ?_⟩
      simp [runFrom, step, stepMain, stepDone, hpc, hinv.2.1, hinv.2.2, hpp, hd]
    · refine ⟨[Event.main, Event.main, Event.main], ?_⟩
      simp [runFrom, step, stepMain, hpc, hinv.2.1, hinv.2.2, hpp]
  | interval =>
    simp only [PhaseInv, hpc] at hinv
    refine ⟨[Event.main, Event.cancel, Event.done, Event.main, Event.main, Event.main], ?_⟩
    simp [runFrom, step, stepMain, stepDone, hpc, hinv.2.2.1, hd]
  | select =>
    simp only [PhaseInv, hpc] at hinv
    refine ⟨[Event.cancel, Event.done, Event.main, Event.main, Event.main], ?_⟩
    simp [runFrom, step, stepMain, stepDone, hpc, hinv.2.2.2.1]
  | exit o =>
    simp only [PhaseInv, hpc] at hinv
    rcases hinv.2 with ⟨e1, -, -, -, ⟨b, -⟩ | ⟨b, -⟩⟩ |
      ⟨-, -, ⟨b, -⟩ | ⟨b, -⟩ | ⟨b, -⟩⟩
    · refine ⟨[Event.main, Event.main], ?_⟩
      simp [runFrom, step, stepMain, hpc, b]
    · refine ⟨[Event.main], ?_⟩
      simp [runFrom, step, stepMain, hpc, b]
    · refine ⟨[Event.main, Event.main, Event.main], ?_⟩
      simp [runFrom, step, stepMain, hpc, b]
    · refine ⟨[Event.main, Event.main], ?_⟩
      simp [runFrom, step, stepMain, hpc, b]
    · refine ⟨[Event.main], ?_⟩
      simp [runFrom, step, stepMain, hpc, b]
  | finished o =>
    exact ⟨[], s, o, rfl, hpc⟩

/-- C1: for a configuration with a positive rate and any answers of the collaborators,
in every state an execution of `Run` reaches: if `Run` has ended there, it returned the
connect error when connecting failed, the error of `prepare` when connecting succeeded
and `prepare` failed, and nil otherwise - a non-nil error exactly when the setup failed,
whatever the workload queries and `cleanup` answered - and a nil return happened only
with the context cancelled; from that state some continuation does end `Run` with that
very result; and in the loop with the context cancelled, the case `<-ctx.Done()` and the
two deferred calls end `Run` with nil. -/
theorem Run_returns_setup_error (cfg : Config) (env : Env) (sched : List Event) (s : State)
    (hrate : 0 < cfg.TempFilesRate) (hrun : Run cfg env sched = some s) :
    (∀ o, s.result = some o →
      o = Outcome.ret (match env.connect with
        | some err => some err
        | none => (prepareAt cfg env).1) ∧
      ((∃ err, o = Outcome.ret (some err)) ↔
        (env.connect ≠ none ∨ (prepareAt cfg env).1 ≠ none)) ∧
      (o = Outcome.ret none → s.cancelled = true)) ∧
    (∃ more t, runFrom cfg env s more = some t ∧
      t.result = some (Outcome.ret (match env.connect with
        | some err => some err
        | none => (prepareAt cfg env).1))) ∧
    (s.pc = Pc.select → s.cancelled = true →
      ∃ t, runFrom cfg env s [Event.done, Event.main, Event.main, Event.main] = some t ∧
        t.result = some (Outcome.ret none)) := by
  have hne : cfg.TempFilesRate ≠ 0 := Int.ne_of_gt hrate
  have hinv := (run_inv hrun).2
  refine ⟨?_, ?_, ?_⟩
  · intro o hres
    have hpc := result_some hres
    have hend := hinv
    simp only [PhaseInv, hpc] at hend
    have ho := ended_result hne hend
    refine ⟨ho, ?_, ?_⟩
    · rw [ho]
      rcases hc : env.connect with _ | cerr
      · rcases hp : (prepareAt cfg env).1 with _ | perr <;> simp
      · simp
    · intro hnil
      subst hnil
      exact run_cancelInv hrun (Or.inr hpc)
  · obtain ⟨more, t, o, hmore, hpc⟩ := run_progress hne hinv
    have hend := (run_inv (run_append hrun hmore)).2
    simp only [PhaseInv, hpc] at hend
    have ho := ended_result hne hend
    exact ⟨more, t, hmore, by simp [State.result, hpc, ho]⟩
  · intro hsel hcan
    simp only [PhaseInv, hsel] at hinv
    obtain ⟨t, h1, h2, -⟩ := loop_exit_ends cfg env hsel hcan hinv.2.2.2.1
    exact ⟨t, h1, h2⟩

/-- C1 at a concrete input: a setup that succeeds, one operation in flight, the context
cancelled; the run `schedCancelled` of the same configuration returns nil. -/
theorem Run_returns_setup_error_witness :
    0 < cfgOne.TempFilesRate ∧
    Run cfgOne envOk schedCancelledBusy = some stateCancelledBusy ∧
    Run cfgOne envOk schedCancelled = some stateCancelledIdle ∧
    stateCancelledIdle.result = some (Outcome.ret none) ∧
    ((∀ o, stateCancelledBusy.result = some o →
      o = Outcome.ret (match envOk.connect with
        | some err => some err
        | none => (prepareAt cfgOne envOk).1) ∧
      ((∃ err, o = Outcome.ret (some err)) ↔
        (envOk.connect ≠ none ∨ (prepareAt cfgOne envOk).1 ≠ none)) ∧
      (o = Outcome.ret none → stateCancelledBusy.cancelled = true)) ∧
    (∃ more t, runFrom cfgOne envOk stateCancelledBusy more = some t ∧
      t.result = some (Outcome.ret (match envOk.connect with
        | some err => some err
        | none => (prepareAt cfgOne envOk).1))) ∧
    (stateCancelledBusy.pc = Pc.select → stateCancelledBusy.cancelled = true →
      ∃ t, runFrom cfgOne envOk stateCancelledBusy
          [Event.done, Event.main, Event.main, Event.main] = some t ∧
        t.result = some (Outcome.ret none))) :=
  ⟨by decide, rfl, rfl, rfl,
    Run_returns_setup_error cfgOne envOk schedCancelledBusy stateCancelledBusy
      (by decide) rfl⟩

end Tempfiles
